import Mathlib

/-!
kube-config-merge: the merge of a source kubeconfig into a target kubeconfig.

A shallow embedding of `src/main.go`: the name transform `getTargetName`
(lines 157-162) and the merge section of `run` (lines 91-144).  Reading the
two documents and writing the target back (lines 52-86 and 149-152) is I/O
and stays outside the embedding.

* A Go `map[string]*T` of the target is a finite map from names to values
  (`NameMap`), wrapped in `Option` because the code tells a nil map from an
  allocated one (`if config.Clusters == nil`).
* A Go `range` over a map of the source visits the entries in an order the
  language leaves open.  The source document is therefore given as the list
  of entries in the order in which `range` visits them; the keys of a map
  are distinct (`SourceConfig.WF`).  A statement for all such lists is a
  statement for every iteration order.
* `run` mutates `config` in place and may return early with an error, so the
  embedding returns the target document as it stands on return, together
  with the error, if any.
-/

namespace KubeConfigMerge

/-- Fields of the `api` records the merge never reads: they are carried along as written. -/
abbrev Fields := List (String × String)

/-- The `api.Cluster` record: the server address and the fields the merge does not look at. -/
structure Cluster where
  Server : String
  rest : Fields
  deriving DecidableEq, Repr

/-- The `api.Context` record: the two references, the default namespace, and the rest. -/
structure Context where
  Cluster : String
  AuthInfo : String
  Namespace : String
  rest : Fields
  deriving DecidableEq, Repr

/-- The `api.AuthInfo` record: credential material, not looked at by the merge. -/
structure AuthInfo where
  Token : String
  rest : Fields
  deriving DecidableEq, Repr

/-- A Go map from names to values. -/
abbrev NameMap (V : Type) := Finmap (fun _ : String => V)

/-- The target document (`api.Config`); a namespace that is `none` is a nil map. -/
structure Config where
  Clusters : Option (NameMap Cluster)
  Contexts : Option (NameMap Context)
  AuthInfos : Option (NameMap AuthInfo)
  CurrentContext : String
  Preferences : Fields
  Extensions : Fields
  deriving DecidableEq

/-- The source document, each map as the list of entries in the order of `range`. -/
structure SourceConfig where
  Clusters : List (String × Cluster)
  Contexts : List (String × Context)
  AuthInfos : List (String × AuthInfo)
  CurrentContext : String
  deriving DecidableEq, Repr

/-- The keys of each map of the source are distinct. -/
def SourceConfig.WF (s : SourceConfig) : Prop :=
  (s.Clusters.map Prod.fst).Nodup ∧ (s.Contexts.map Prod.fst).Nodup ∧
    (s.AuthInfos.map Prod.fst).Nodup

instance (s : SourceConfig) : Decidable s.WF := by
  unfold SourceConfig.WF; infer_instance

/-- The command-line options of `run` that steer the merge (lines 23-26). -/
structure Flags where
  override : Bool
  server : String
  overrideName : String
  pfx : String
  deriving DecidableEq, Repr

/-- The namespace an error speaks about. -/
inductive Kind where
  | cluster
  | context
  | user
  deriving DecidableEq, Repr

/-- The errors the merge section of `run` returns (lines 92, 102, 121, 138). -/
inductive MergeError where
  | nameOverride
  | alreadyExists (kind : Kind) (targetName : String)
  deriving DecidableEq, Repr

/-- The word a collision message starts with. -/
def Kind.word : Kind → String
  | .cluster => "cluster"
  | .context => "context"
  | .user => "user"

/-- The text of the error, as `fmt.Errorf` builds it. -/
def MergeError.message : MergeError → String
  | .nameOverride =>
    "you can't use --name to override name for source configurations with more than one cluster, context or user"
  | .alreadyExists kind targetName =>
    kind.word ++ " '" ++ targetName ++ "' does already exist in target config"

/-- The function `getTargetName` (lines 157-162). -/
def getTargetName (name : String) (overrideName : String) (pfx : String) : String :=
  if overrideName ≠ "" then pfx ++ overrideName else pfx ++ name

/-- A value copy: `DeepCopy` of a cluster. -/
def Cluster.DeepCopy (c : Cluster) : Cluster := c

/-- A value copy: `DeepCopy` of a context. -/
def Context.DeepCopy (c : Context) : Context := c

/-- A value copy: `DeepCopy` of a user. -/
def AuthInfo.DeepCopy (u : AuthInfo) : AuthInfo := u

/-- The map a namespace holds once `make` has replaced a nil map (lines 96-98). -/
def allocated {V : Type} : Option (NameMap V) → NameMap V
  | none => ∅
  | some m => m

/-- The loop over the clusters of the source (lines 95-112): the clusters of the target on
leaving the loop, and the error if the loop returned early. -/
def rangeClusters (override : Bool) (server overrideName pfx : String) :
    List (String × Cluster) → Option (NameMap Cluster) →
      Option (NameMap Cluster) × Option MergeError
  | [], clusters => (clusters, none)
  | (name, cluster) :: rest, clusters =>
    let clusters := allocated clusters
    let targetName := getTargetName name overrideName pfx
    if targetName ∈ clusters ∧ override = false then
      (some clusters, some (.alreadyExists .cluster targetName))
    else
      let newCluster := cluster.DeepCopy
      let newCluster := if server ≠ "" then { newCluster with Server := server } else newCluster
      rangeClusters override server overrideName pfx rest
        (some (clusters.insert targetName newCluster))

/-- The loop over the contexts of the source (lines 114-129). -/
def rangeContexts (override : Bool) (overrideName pfx : String) :
    List (String × Context) → Option (NameMap Context) →
      Option (NameMap Context) × Option MergeError
  | [], contexts => (contexts, none)
  | (name, context) :: rest, contexts =>
    let contexts := allocated contexts
    let targetName := getTargetName name overrideName pfx
    if targetName ∈ contexts ∧ override = false then
      (some contexts, some (.alreadyExists .context targetName))
    else
      let newContext := context.DeepCopy
      let newContext := { newContext with
        Cluster := getTargetName context.Cluster overrideName pfx }
      let newContext := { newContext with
        AuthInfo := getTargetName context.AuthInfo overrideName pfx }
      rangeContexts override overrideName pfx rest
        (some (contexts.insert targetName newContext))

/-- The loop over the users of the source (lines 131-144). -/
def rangeAuthInfos (override : Bool) (overrideName pfx : String) :
    List (String × AuthInfo) → Option (NameMap AuthInfo) →
      Option (NameMap AuthInfo) × Option MergeError
  | [], authInfos => (authInfos, none)
  | (name, user) :: rest, authInfos =>
    let authInfos := allocated authInfos
    let targetName := getTargetName name overrideName pfx
    if targetName ∈ authInfos ∧ override = false then
      (some authInfos, some (.alreadyExists .user targetName))
    else
      let newAuthInfo := user.DeepCopy
      rangeAuthInfos override overrideName pfx rest
        (some (authInfos.insert targetName newAuthInfo))

/-- The guard of line 91: a name override against a source with more than one cluster,
context or user. -/
def ambiguousOverride (overrideName : String) (sourceConfig : SourceConfig) : Prop :=
  overrideName ≠ "" ∧ (sourceConfig.Clusters.length > 1 ∨ sourceConfig.Contexts.length > 1 ∨
    sourceConfig.AuthInfos.length > 1)

instance (overrideName : String) (sourceConfig : SourceConfig) :
    Decidable (ambiguousOverride overrideName sourceConfig) := by
  unfold ambiguousOverride; infer_instance

/-- The merge section of `run` (lines 91-144): the target document on return and the error
returned, `none` when the merge ran to the end. -/
def run (flags : Flags) (sourceConfig : SourceConfig) (config : Config) :
    Config × Option MergeError :=
  if ambiguousOverride flags.overrideName sourceConfig then
    (config, some .nameOverride)
  else
    match rangeClusters flags.override flags.server flags.overrideName flags.pfx
        sourceConfig.Clusters config.Clusters with
    | (clusters, some err) => ({ config with Clusters := clusters }, some err)
    | (clusters, none) =>
      let config := { config with Clusters := clusters }
      match rangeContexts flags.override flags.overrideName flags.pfx
          sourceConfig.Contexts config.Contexts with
      | (contexts, some err) => ({ config with Contexts := contexts }, some err)
      | (contexts, none) =>
        let config := { config with Contexts := contexts }
        match rangeAuthInfos flags.override flags.overrideName flags.pfx
            sourceConfig.AuthInfos config.AuthInfos with
        | (authInfos, some err) => ({ config with AuthInfos := authInfos }, some err)
        | (authInfos, none) => ({ config with AuthInfos := authInfos }, none)

/-- The entry a namespace holds under a name; a nil map holds none. -/
def entry {V : Type} (ns : Option (NameMap V)) (name : String) : Option V :=
  match ns with
  | none => none
  | some m => m.lookup name

/-- The empty target document. -/
def emptyConfig : Config :=
  { Clusters := none, Contexts := none, AuthInfos := none, CurrentContext := "",
    Preferences := [], Extensions := [] }

/-- The shape the three loops share: `kind` names the namespace, `tn` is the name transform
of the run and `copy` is what the loop stores for a source value. -/
def rangeEntries {V : Type} (kind : Kind) (override : Bool) (tn : String → String)
    (copy : V → V) : List (String × V) → Option (NameMap V) →
      Option (NameMap V) × Option MergeError
  | [], ns => (ns, none)
  | (name, v) :: rest, ns =>
    if tn name ∈ allocated ns ∧ override = false then
      (some (allocated ns), some (.alreadyExists kind (tn name)))
    else
      rangeEntries kind override tn copy rest (some ((allocated ns).insert (tn name) (copy v)))

/-- What the cluster loop stores for a source cluster (lines 105-109). -/
def copyCluster (server : String) (cluster : Cluster) : Cluster :=
  if server ≠ "" then { cluster with Server := server } else cluster

/-- What the context loop stores for a source context (lines 124-126). -/
def copyContext (overrideName pfx : String) (context : Context) : Context :=
  { context with
    Cluster := getTargetName context.Cluster overrideName pfx
    AuthInfo := getTargetName context.AuthInfo overrideName pfx }

/-- The cluster loop of a run. -/
abbrev clusterLoop (flags : Flags) (sourceConfig : SourceConfig) (config : Config) :
    Option (NameMap Cluster) × Option MergeError :=
  rangeEntries .cluster flags.override (fun name => getTargetName name flags.overrideName flags.pfx)
    (copyCluster flags.server) sourceConfig.Clusters config.Clusters

/-- The context loop of a run. -/
abbrev contextLoop (flags : Flags) (sourceConfig : SourceConfig) (config : Config) :
    Option (NameMap Context) × Option MergeError :=
  rangeEntries .context flags.override (fun name => getTargetName name flags.overrideName flags.pfx)
    (copyContext flags.overrideName flags.pfx) sourceConfig.Contexts config.Contexts

/-- The user loop of a run. -/
abbrev userLoop (flags : Flags) (sourceConfig : SourceConfig) (config : Config) :
    Option (NameMap AuthInfo) × Option MergeError :=
  rangeEntries .user flags.override (fun name => getTargetName name flags.overrideName flags.pfx)
    (fun user => user) sourceConfig.AuthInfos config.AuthInfos

/-- The names under which the entries of a source map are stored in the target. -/
def targetNames {V : Type} (overrideName pfx : String) (l : List (String × V)) : List String :=
  l.map (fun e => getTargetName e.1 overrideName pfx)

/-- The namespace of the target of a given kind has an entry under the name. -/
def Config.hasKey (config : Config) : Kind → String → Prop
  | .cluster, name => (entry config.Clusters name).isSome
  | .context, name => (entry config.Contexts name).isSome
  | .user, name => (entry config.AuthInfos name).isSome

instance (config : Config) (kind : Kind) (name : String) :
    Decidable (config.hasKey kind name) := by
  cases kind <;> (unfold Config.hasKey; infer_instance)

/-- The target names of the source entries of a given kind. -/
def SourceConfig.targetNames (s : SourceConfig) (flags : Flags) : Kind → List String
  | .cluster => KubeConfigMerge.targetNames flags.overrideName flags.pfx s.Clusters
  | .context => KubeConfigMerge.targetNames flags.overrideName flags.pfx s.Contexts
  | .user => KubeConfigMerge.targetNames flags.overrideName flags.pfx s.AuthInfos

/-- Some source entry of the kind has a target name that is a key of the namespace of the
target of that kind. -/
def collides (flags : Flags) (sourceConfig : SourceConfig) (config : Config) (kind : Kind) :
    Prop :=
  ∃ T ∈ sourceConfig.targetNames flags kind, config.hasKey kind T

instance (flags : Flags) (sourceConfig : SourceConfig) (config : Config) (kind : Kind) :
    Decidable (collides flags sourceConfig config kind) := by
  unfold collides; infer_instance

/-! ## Sample documents -/

/-- A source with one cluster, one context and one user. -/
def sampleSource : SourceConfig :=
  { Clusters := [("c1", ⟨"https://a", []⟩)]
    Contexts := [("x1", ⟨"c1", "u1", "", []⟩)]
    AuthInfos := [("u1", ⟨"t", []⟩)]
    CurrentContext := "x1" }

/-- A source with two clusters, `A` and `B`, on different servers. -/
def twoClusterSource : SourceConfig :=
  { Clusters := [("A", ⟨"https://a", []⟩), ("B", ⟨"https://b", []⟩)]
    Contexts := [("x1", ⟨"A", "u1", "", []⟩)]
    AuthInfos := [("u1", ⟨"t", []⟩)]
    CurrentContext := "x1" }

/-- A target that has a cluster `foo`, a cluster `A`, a context `x1` and a user `u1`. -/
def sampleTarget : Config :=
  { Clusters := some ((Finmap.singleton "foo" ⟨"https://old", []⟩).insert "A" ⟨"https://old-a", []⟩)
    Contexts := some (Finmap.singleton "x1" ⟨"foo", "u1", "dev", []⟩)
    AuthInfos := some (Finmap.singleton "u1" ⟨"old-token", []⟩)
    CurrentContext := "x1"
    Preferences := []
    Extensions := [] }

/-- A target whose three maps are allocated and empty. -/
def allocatedConfig : Config :=
  { Clusters := some ∅, Contexts := some ∅, AuthInfos := some ∅, CurrentContext := "",
    Preferences := [], Extensions := [] }

/-- A target that has a context `x1` and nothing else. -/
def contextTarget : Config :=
  { Clusters := none
    Contexts := some (Finmap.singleton "x1" ⟨"old", "old", "dev", []⟩)
    AuthInfos := none
    CurrentContext := "x1"
    Preferences := [("colors", "true")]
    Extensions := [] }

/-- A target that has a user `u1` and nothing else. -/
def userTarget : Config :=
  { Clusters := none
    Contexts := none
    AuthInfos := some (Finmap.singleton "u1" ⟨"old-token", []⟩)
    CurrentContext := ""
    Preferences := []
    Extensions := [] }

/-- The source `twoClusterSource`, its clusters visited in the other order. -/
def twoClusterSourceSwapped : SourceConfig :=
  { Clusters := [("B", ⟨"https://b", []⟩), ("A", ⟨"https://a", []⟩)]
    Contexts := [("x1", ⟨"A", "u1", "", []⟩)]
    AuthInfos := [("u1", ⟨"t", []⟩)]
    CurrentContext := "x1" }

/-! ## The maps of the target -/

theorem entry_eq_lookup {V : Type} (ns : Option (NameMap V)) (k : String) :
    entry ns k = (allocated ns).lookup k := by
  cases ns <;> simp [entry, allocated]

theorem mem_allocated {V : Type} (ns : Option (NameMap V)) (k : String) :
    k ∈ allocated ns ↔ (entry ns k).isSome := by
  rw [entry_eq_lookup, Finmap.lookup_isSome]

theorem not_mem_allocated {V : Type} (ns : Option (NameMap V)) (k : String) :
    k ∉ allocated ns ↔ entry ns k = none := by
  rw [entry_eq_lookup, Finmap.lookup_eq_none]

theorem entry_insert_self {V : Type} (m : NameMap V) (k : String) (v : V) :
    entry (some (m.insert k v)) k = some v := by
  simp [entry]

theorem entry_insert_of_ne {V : Type} (m : NameMap V) (k k' : String) (v : V) (h : k' ≠ k) :
    entry (some (m.insert k v)) k' = m.lookup k' := by
  simp only [entry]
  exact Finmap.lookup_insert_of_ne m h

theorem entry_allocated {V : Type} (ns : Option (NameMap V)) (k : String) :
    entry (some (allocated ns)) k = entry ns k :=
  (entry_eq_lookup ns k).symm

theorem allocated_eq_empty {V : Type} (ns : Option (NameMap V))
    (h : ∀ k, entry ns k = none) : allocated ns = ∅ := by
  apply Finmap.ext_lookup
  intro k
  rw [← entry_eq_lookup, h k, Finmap.lookup_empty]

theorem insert_of_lookup {V : Type} (m : NameMap V) (k : String) (v : V)
    (h : m.lookup k = some v) : m.insert k v = m := by
  apply Finmap.ext_lookup
  intro x
  by_cases hx : x = k
  · subst hx
    rw [Finmap.lookup_insert, h]
  · rw [Finmap.lookup_insert_of_ne m hx]

theorem insert_empty {V : Type} (k : String) (v : V) :
    (∅ : NameMap V).insert k v = Finmap.singleton k v := by
  apply Finmap.ext_lookup
  intro x
  by_cases hx : x = k
  · subst hx
    rw [Finmap.lookup_insert, Finmap.lookup_singleton_eq]
  · rw [Finmap.lookup_insert_of_ne _ hx, Finmap.lookup_empty]
    symm
    rw [Finmap.lookup_eq_none, Finmap.mem_singleton]
    exact hx

/-- Two namespaces are equal when both are nil or neither is, and they hold the same
entries. -/
theorem namespace_ext {V : Type} (a b : Option (NameMap V)) (hn : a = none ↔ b = none)
    (he : ∀ k, entry a k = entry b k) : a = b := by
  cases a with
  | none =>
    cases b with
    | none => rfl
    | some m => exact absurd (hn.1 rfl) (by simp)
  | some m =>
    cases b with
    | none => exact absurd (hn.2 rfl) (by simp)
    | some m' => exact congrArg some (Finmap.ext_lookup he)

/-! ## The name transform -/

theorem append_left_cancel (p a b : String) (h : p ++ a = p ++ b) : a = b := by
  have h1 := congrArg String.data h
  simp only [String.data_append] at h1
  exact String.ext (List.append_cancel_left h1)

theorem getTargetName_injective (pfx : String) :
    Function.Injective (fun name => getTargetName name "" pfx) := by
  intro a b h
  simp only [getTargetName, ne_eq, not_true_eq_false, if_false] at h
  exact append_left_cancel pfx a b h

/-- Under a source that passes the guard of line 91, distinct keys have distinct target
names. -/
theorem targetNames_nodup {V : Type} (overrideName pfx : String) (l : List (String × V))
    (hpol : overrideName = "" ∨ l.length ≤ 1) (hkeys : (l.map Prod.fst).Nodup) :
    (targetNames overrideName pfx l).Nodup := by
  rcases hpol with h | h
  · subst h
    have : targetNames "" pfx l = (l.map Prod.fst).map (fun name => getTargetName name "" pfx) := by
      simp [targetNames, List.map_map, Function.comp_def]
    rw [this]
    exact hkeys.map (getTargetName_injective pfx)
  · match l, h with
    | [], _ => simp [targetNames]
    | [_], _ => simp [targetNames]
    | _ :: _ :: _, h => simp at h

/-! ## The three loops are instances of one loop -/

theorem rangeClusters_eq (override : Bool) (server overrideName pfx : String)
    (l : List (String × Cluster)) (ns : Option (NameMap Cluster)) :
    rangeClusters override server overrideName pfx l ns =
      rangeEntries .cluster override (fun name => getTargetName name overrideName pfx)
        (copyCluster server) l ns := by
  induction l generalizing ns with
  | nil => rfl
  | cons e rest ih =>
    obtain ⟨name, cluster⟩ := e
    simp only [rangeClusters, rangeEntries, Cluster.DeepCopy, copyCluster, ih]

theorem rangeContexts_eq (override : Bool) (overrideName pfx : String)
    (l : List (String × Context)) (ns : Option (NameMap Context)) :
    rangeContexts override overrideName pfx l ns =
      rangeEntries .context override (fun name => getTargetName name overrideName pfx)
        (copyContext overrideName pfx) l ns := by
  induction l generalizing ns with
  | nil => rfl
  | cons e rest ih =>
    obtain ⟨name, context⟩ := e
    simp only [rangeContexts, rangeEntries, Context.DeepCopy, copyContext, ih]

theorem rangeAuthInfos_eq (override : Bool) (overrideName pfx : String)
    (l : List (String × AuthInfo)) (ns : Option (NameMap AuthInfo)) :
    rangeAuthInfos override overrideName pfx l ns =
      rangeEntries .user override (fun name => getTargetName name overrideName pfx)
        (fun user => user) l ns := by
  induction l generalizing ns with
  | nil => rfl
  | cons e rest ih =>
    obtain ⟨name, user⟩ := e
    simp only [rangeAuthInfos, rangeEntries, AuthInfo.DeepCopy, ih]

/-! ## The loop -/

section Loop

variable {V : Type} (kind : Kind) (override : Bool) (tn : String → String) (copy : V → V)

/-- An entry of the target stays as it is when the loop may not overwrite, or when no source
entry is stored under its name. -/
theorem rangeEntries_frame (l : List (String × V)) (ns : Option (NameMap V)) (k : String)
    (v : V) (hk : entry ns k = some v)
    (hfree : override = false ∨ k ∉ l.map (fun e => tn e.1)) :
    entry (rangeEntries kind override tn copy l ns).1 k = some v := by
  induction l generalizing ns with
  | nil => simpa [rangeEntries] using hk
  | cons e rest ih =>
    obtain ⟨name, w⟩ := e
    simp only [rangeEntries]
    split
    · simpa [entry, ← entry_eq_lookup] using hk
    · rename_i hno
      have hne : k ≠ tn name := by
        rcases hfree with ho | hnot
        · intro heq
          apply hno
          refine ⟨?_, ho⟩
          rw [mem_allocated, ← heq, hk]; rfl
        · intro heq
          apply hnot
          simp [heq]
      apply ih
      · rw [entry_insert_of_ne _ _ _ _ hne, ← entry_eq_lookup]; exact hk
      · rcases hfree with ho | hnot
        · exact Or.inl ho
        · right
          intro hmem
          apply hnot
          simp only [List.map_cons, List.mem_cons]
          exact Or.inr hmem

/-- An error of the loop is a collision, raised with `override` off, on the target name of a
source entry; when the target names are distinct, that name was in the map before the loop. -/
theorem rangeEntries_error (l : List (String × V)) (ns : Option (NameMap V))
    (e : MergeError) (he : (rangeEntries kind override tn copy l ns).2 = some e)
    (hnd : (l.map (fun e => tn e.1)).Nodup) :
    override = false ∧ ∃ T, T ∈ l.map (fun e => tn e.1) ∧ e = .alreadyExists kind T ∧
      (entry ns T).isSome := by
  induction l generalizing ns with
  | nil => simp [rangeEntries] at he
  | cons x rest ih =>
    obtain ⟨name, w⟩ := x
    simp only [rangeEntries] at he
    simp only [List.map_cons, List.nodup_cons] at hnd
    split at he
    · rename_i hyes
      simp only [Option.some.injEq] at he
      refine ⟨hyes.2, tn name, by simp, he.symm, ?_⟩
      exact (mem_allocated ns _).1 hyes.1
    · obtain ⟨ho, T, hT, heq, hin⟩ := ih _ he hnd.2
      refine ⟨ho, T, by simp [hT], heq, ?_⟩
      have hne : T ≠ tn name := by
        rintro rfl
        exact hnd.1 hT
      rw [entry_insert_of_ne _ _ _ _ hne, ← entry_eq_lookup] at hin
      exact hin

/-- With `override` off, a source entry whose target name is in the map makes the loop
return a collision error. -/
theorem rangeEntries_collision (l : List (String × V)) (ns : Option (NameMap V))
    (ho : override = false)
    (hcol : ∃ T, T ∈ l.map (fun e => tn e.1) ∧ (entry ns T).isSome) :
    ∃ T, (rangeEntries kind override tn copy l ns).2 = some (.alreadyExists kind T) := by
  induction l generalizing ns with
  | nil => simp at hcol
  | cons x rest ih =>
    obtain ⟨name, w⟩ := x
    simp only [rangeEntries]
    split
    · exact ⟨tn name, rfl⟩
    · rename_i hno
      obtain ⟨T, hT, hin⟩ := hcol
      simp only [List.map_cons, List.mem_cons] at hT
      have hne : T ≠ tn name := by
        rintro rfl
        exact hno ⟨(mem_allocated ns _).2 hin, ho⟩
      apply ih
      refine ⟨T, ?_, ?_⟩
      · rcases hT with h | h
        · exact absurd h hne
        · exact h
      · rw [entry_insert_of_ne _ _ _ _ hne, ← entry_eq_lookup]; exact hin

/-- The loop runs to the end when it may overwrite, or when no target name of the source is
in the map and the target names are distinct. -/
theorem rangeEntries_ok (l : List (String × V)) (ns : Option (NameMap V))
    (h : override = true ∨
      ((l.map (fun e => tn e.1)).Nodup ∧ ∀ T ∈ l.map (fun e => tn e.1), entry ns T = none)) :
    (rangeEntries kind override tn copy l ns).2 = none := by
  induction l generalizing ns with
  | nil => rfl
  | cons x rest ih =>
    obtain ⟨name, w⟩ := x
    simp only [rangeEntries]
    split
    · rename_i hyes
      rcases h with h | ⟨_, h⟩
      · rw [h] at hyes; simp at hyes
      · have := h (tn name) (by simp)
        rw [← not_mem_allocated] at this
        exact absurd hyes.1 this
    · apply ih
      rcases h with h | ⟨hnd, h⟩
      · exact Or.inl h
      · right
        simp only [List.map_cons, List.nodup_cons] at hnd
        refine ⟨hnd.2, fun T hT => ?_⟩
        have hne : T ≠ tn name := by
          rintro rfl
          exact hnd.1 hT
        rw [entry_insert_of_ne _ _ _ _ hne, ← entry_eq_lookup]
        exact h T (by simp [hT])

/-- After a loop that ran to the end over distinct target names, each source entry is
stored under its target name as the copy of its value. -/
theorem rangeEntries_stored (l : List (String × V)) (ns : Option (NameMap V))
    (hok : (rangeEntries kind override tn copy l ns).2 = none)
    (hnd : (l.map (fun e => tn e.1)).Nodup) (name : String) (v : V) (hmem : (name, v) ∈ l) :
    entry (rangeEntries kind override tn copy l ns).1 (tn name) = some (copy v) := by
  induction l generalizing ns with
  | nil => simp at hmem
  | cons x rest ih =>
    obtain ⟨name0, w⟩ := x
    simp only [rangeEntries] at hok ⊢
    simp only [List.map_cons, List.nodup_cons] at hnd
    split at hok
    · simp at hok
    · rename_i hno
      rw [if_neg hno]
      simp only [List.mem_cons, Prod.mk.injEq] at hmem
      rcases hmem with ⟨rfl, rfl⟩ | hmem
      · apply rangeEntries_frame
        · exact entry_insert_self _ _ _
        · exact Or.inr hnd.1
      · exact ih _ hok hnd.2 hmem

/-- A property that every stored copy has holds of what the map has under a name after the
loop, if it held before the loop of what the map had there. -/
theorem rangeEntries_keeps (Q : V → Prop) (hQ : ∀ v, Q (copy v)) (l : List (String × V))
    (ns : Option (NameMap V)) (k : String) (hk : ∃ v, entry ns k = some v ∧ Q v) :
    ∃ v, entry (rangeEntries kind override tn copy l ns).1 k = some v ∧ Q v := by
  induction l generalizing ns with
  | nil => simpa [rangeEntries] using hk
  | cons x rest ih =>
    obtain ⟨name0, w⟩ := x
    simp only [rangeEntries]
    split
    · simpa [entry, ← entry_eq_lookup] using hk
    · apply ih
      by_cases hne : k = tn name0
      · subst hne
        exact ⟨copy w, entry_insert_self _ _ _, hQ w⟩
      · rw [entry_insert_of_ne _ _ _ _ hne, ← entry_eq_lookup]
        exact hk

/-- After a loop that ran to the end, the map has, under the target name of every source
entry, a value with every property that all stored copies have. -/
theorem rangeEntries_stored_of (Q : V → Prop) (hQ : ∀ v, Q (copy v)) (l : List (String × V))
    (ns : Option (NameMap V))
    (hok : (rangeEntries kind override tn copy l ns).2 = none)
    (name : String) (v : V) (hmem : (name, v) ∈ l) :
    ∃ v, entry (rangeEntries kind override tn copy l ns).1 (tn name) = some v ∧ Q v := by
  induction l generalizing ns with
  | nil => simp at hmem
  | cons x rest ih =>
    obtain ⟨name0, w⟩ := x
    simp only [rangeEntries] at hok ⊢
    split at hok
    · simp at hok
    · rename_i hno
      rw [if_neg hno]
      simp only [List.mem_cons, Prod.mk.injEq] at hmem
      rcases hmem with ⟨rfl, rfl⟩ | hmem
      · apply rangeEntries_keeps
        · exact hQ
        · exact ⟨copy v, entry_insert_self _ _ _, hQ v⟩
      · exact ih _ hok hmem

/-- The loop leaves alone what the map has under a name that is no target name of the
source. -/
theorem rangeEntries_untouched (l : List (String × V)) (ns : Option (NameMap V)) (k : String)
    (hk : k ∉ l.map (fun e => tn e.1)) :
    entry (rangeEntries kind override tn copy l ns).1 k = entry ns k := by
  induction l generalizing ns with
  | nil => rfl
  | cons x rest ih =>
    obtain ⟨name, w⟩ := x
    simp only [List.map_cons, List.mem_cons, not_or] at hk
    simp only [rangeEntries]
    split
    · exact entry_allocated ns k
    · rw [ih _ hk.2, entry_insert_of_ne _ _ _ _ hk.1, ← entry_eq_lookup]

/-- What the map has after the loop, it had before the loop or it is the copy of a source
entry, stored under the target name of that entry. -/
theorem rangeEntries_origin (l : List (String × V)) (ns : Option (NameMap V)) (k : String)
    (v : V) (h : entry (rangeEntries kind override tn copy l ns).1 k = some v) :
    entry ns k = some v ∨ ∃ name w, (name, w) ∈ l ∧ tn name = k ∧ v = copy w := by
  induction l generalizing ns with
  | nil => exact Or.inl h
  | cons x rest ih =>
    obtain ⟨name, w⟩ := x
    simp only [rangeEntries] at h
    split at h
    · left
      rw [← entry_allocated ns k]
      exact h
    · rcases ih _ h with h1 | ⟨n, u, hmem, hn, hv⟩
      · by_cases hk : k = tn name
        · subst hk
          rw [entry_insert_self] at h1
          simp only [Option.some.injEq] at h1
          exact Or.inr ⟨name, w, by simp, rfl, h1.symm⟩
        · left
          rw [entry_insert_of_ne _ _ _ _ hk, ← entry_eq_lookup] at h1
          exact h1
      · exact Or.inr ⟨n, u, by simp [hmem], hn, hv⟩

theorem rangeEntries_ne_none (l : List (String × V)) (m : NameMap V) :
    (rangeEntries kind override tn copy l (some m)).1 ≠ none := by
  induction l generalizing m with
  | nil => simp [rangeEntries]
  | cons x rest ih =>
    obtain ⟨name, w⟩ := x
    simp only [rangeEntries]
    split
    · simp
    · exact ih _

/-- The namespace is nil after the loop only when it was nil before and the source map is
empty. -/
theorem rangeEntries_eq_none_iff (l : List (String × V)) (ns : Option (NameMap V)) :
    (rangeEntries kind override tn copy l ns).1 = none ↔ l = [] ∧ ns = none := by
  cases l with
  | nil => simp [rangeEntries]
  | cons x rest =>
    obtain ⟨name, w⟩ := x
    simp only [rangeEntries]
    split
    · simp
    · simp only [reduceCtorEq, false_and, iff_false]
      exact rangeEntries_ne_none kind override tn copy rest _

/-- The loop runs to the end exactly when it may overwrite or no target name of the source is
in the map, the target names being distinct. -/
theorem rangeEntries_ok_iff (l : List (String × V)) (ns : Option (NameMap V))
    (hnd : (l.map (fun e => tn e.1)).Nodup) :
    (rangeEntries kind override tn copy l ns).2 = none ↔
      (override = true ∨ ∀ T ∈ l.map (fun e => tn e.1), entry ns T = none) := by
  constructor
  · intro hok
    cases ho : override with
    | true => exact Or.inl rfl
    | false =>
      right
      intro T hT
      by_contra hne
      obtain ⟨U, hU⟩ := rangeEntries_collision kind override tn copy l ns ho
        ⟨T, hT, Option.ne_none_iff_isSome.1 hne⟩
      rw [hok] at hU
      cases hU
  · rintro (h | h)
    · exact rangeEntries_ok kind override tn copy l ns (Or.inl h)
    · exact rangeEntries_ok kind override tn copy l ns (Or.inr ⟨hnd, h⟩)

/-- Whether the loop runs to the end does not depend on the order of the source entries. -/
theorem rangeEntries_ok_perm (l l' : List (String × V)) (ns : Option (NameMap V))
    (hp : l.Perm l') (hnd : (l.map (fun e => tn e.1)).Nodup) :
    (rangeEntries kind override tn copy l ns).2 = none ↔
      (rangeEntries kind override tn copy l' ns).2 = none := by
  have hp' : (l.map (fun e => tn e.1)).Perm (l'.map (fun e => tn e.1)) := hp.map _
  rw [rangeEntries_ok_iff kind override tn copy l ns hnd,
    rangeEntries_ok_iff kind override tn copy l' ns (hp'.nodup_iff.1 hnd)]
  constructor
  · rintro (h | h)
    · exact Or.inl h
    · exact Or.inr fun T hT => h T (hp'.mem_iff.2 hT)
  · rintro (h | h)
    · exact Or.inl h
    · exact Or.inr fun T hT => h T (hp'.mem_iff.1 hT)

/-- The map after a loop that ran to the end does not depend on the order of the source
entries. -/
theorem rangeEntries_perm (l l' : List (String × V)) (ns : Option (NameMap V))
    (hp : l.Perm l') (hnd : (l.map (fun e => tn e.1)).Nodup)
    (hok : (rangeEntries kind override tn copy l ns).2 = none)
    (hok' : (rangeEntries kind override tn copy l' ns).2 = none) :
    (rangeEntries kind override tn copy l ns).1 = (rangeEntries kind override tn copy l' ns).1 := by
  have hp' : (l.map (fun e => tn e.1)).Perm (l'.map (fun e => tn e.1)) := hp.map _
  apply namespace_ext
  · rw [rangeEntries_eq_none_iff, rangeEntries_eq_none_iff]
    constructor
    · rintro ⟨rfl, h⟩
      exact ⟨List.Perm.nil_eq hp |>.symm, h⟩
    · rintro ⟨rfl, h⟩
      exact ⟨List.Perm.eq_nil hp, h⟩
  · intro k
    by_cases hk : k ∈ l.map (fun e => tn e.1)
    · obtain ⟨⟨name, w⟩, hmem, rfl⟩ := List.mem_map.1 hk
      rw [rangeEntries_stored kind override tn copy l ns hok hnd name w hmem,
        rangeEntries_stored kind override tn copy l' ns hok' (hp'.nodup_iff.1 hnd) name w
          (hp.mem_iff.1 hmem)]
    · rw [rangeEntries_untouched kind override tn copy l ns k hk,
        rangeEntries_untouched kind override tn copy l' ns k (fun h => hk (hp'.mem_iff.2 h))]

/-- With `override` on, the loop over entries that the map already has as their copies
leaves the map as it is. -/
theorem rangeEntries_rerun (l : List (String × V)) (ns : Option (NameMap V))
    (ho : override = true)
    (h : ∀ name w, (name, w) ∈ l → entry ns (tn name) = some (copy w)) :
    rangeEntries kind override tn copy l ns = (ns, none) := by
  subst ho
  induction l generalizing ns with
  | nil => rfl
  | cons x rest ih =>
    obtain ⟨name, w⟩ := x
    have hhead := h name w (by simp)
    have hsame : some ((allocated ns).insert (tn name) (copy w)) = ns := by
      cases ns with
      | none => simp [entry] at hhead
      | some m =>
        simp only [entry] at hhead
        simp only [allocated]
        rw [insert_of_lookup m _ _ hhead]
    simp only [rangeEntries, Bool.true_eq_false, and_false, if_false]
    rw [hsame]
    exact ih ns fun n u hmem => h n u (by simp [hmem])

/-- The loop over a single entry, into a namespace that holds nothing. -/
theorem rangeEntries_single (name : String) (w : V) (ns : Option (NameMap V))
    (hns : ∀ k, entry ns k = none) :
    rangeEntries kind override tn copy [(name, w)] ns =
      (some (Finmap.singleton (tn name) (copy w)), none) := by
  simp only [rangeEntries, allocated_eq_empty ns hns, Finmap.not_mem_empty, false_and,
    if_false, insert_empty]

/-- An error of the loop is a collision of the kind of the loop. -/
theorem rangeEntries_error_kind (l : List (String × V)) (ns : Option (NameMap V))
    (e : MergeError) (he : (rangeEntries kind override tn copy l ns).2 = some e) :
    ∃ T, e = .alreadyExists kind T := by
  induction l generalizing ns with
  | nil => simp [rangeEntries] at he
  | cons x rest ih =>
    obtain ⟨name, w⟩ := x
    simp only [rangeEntries] at he
    split at he
    · simp only [Option.some.injEq] at he
      exact ⟨tn name, he.symm⟩
    · exact ih _ he

end Loop

/-! ## The merge as a sequence of the three loops -/

section Run

variable (flags : Flags) (sourceConfig : SourceConfig) (config : Config)

theorem run_eq :
    run flags sourceConfig config =
      if ambiguousOverride flags.overrideName sourceConfig then (config, some .nameOverride)
      else if ((clusterLoop flags sourceConfig config).2).isSome then
        ({ config with Clusters := (clusterLoop flags sourceConfig config).1 },
          (clusterLoop flags sourceConfig config).2)
      else if ((contextLoop flags sourceConfig config).2).isSome then
        ({ config with
            Clusters := (clusterLoop flags sourceConfig config).1
            Contexts := (contextLoop flags sourceConfig config).1 },
          (contextLoop flags sourceConfig config).2)
      else
        ({ config with
            Clusters := (clusterLoop flags sourceConfig config).1
            Contexts := (contextLoop flags sourceConfig config).1
            AuthInfos := (userLoop flags sourceConfig config).1 },
          (userLoop flags sourceConfig config).2) := by
  unfold run clusterLoop contextLoop userLoop
  simp only [rangeClusters_eq, rangeContexts_eq, rangeAuthInfos_eq]
  split
  · rfl
  · rcases rangeEntries Kind.cluster flags.override
        (fun name => getTargetName name flags.overrideName flags.pfx)
        (copyCluster flags.server) sourceConfig.Clusters config.Clusters with ⟨cl, _ | e1⟩
    · rcases rangeEntries Kind.context flags.override
          (fun name => getTargetName name flags.overrideName flags.pfx)
          (copyContext flags.overrideName flags.pfx) sourceConfig.Contexts
          config.Contexts with ⟨cx, _ | e2⟩
      · rcases rangeEntries Kind.user flags.override
            (fun name => getTargetName name flags.overrideName flags.pfx)
            (fun user => user) sourceConfig.AuthInfos config.AuthInfos with ⟨us, _ | e3⟩
        · simp
        · simp
      · simp
    · simp

theorem run_ambiguous (h : ambiguousOverride flags.overrideName sourceConfig) :
    run flags sourceConfig config = (config, some .nameOverride) := by
  rw [run_eq, if_pos h]

theorem not_ambiguous (h : ¬ ambiguousOverride flags.overrideName sourceConfig) :
    (flags.overrideName = "" ∨ sourceConfig.Clusters.length ≤ 1) ∧
    (flags.overrideName = "" ∨ sourceConfig.Contexts.length ≤ 1) ∧
    (flags.overrideName = "" ∨ sourceConfig.AuthInfos.length ≤ 1) := by
  unfold ambiguousOverride at h
  by_cases hO : flags.overrideName = ""
  · exact ⟨Or.inl hO, Or.inl hO, Or.inl hO⟩
  · simp only [ne_eq, hO, not_false_eq_true, true_and, not_or, not_lt] at h
    exact ⟨Or.inr (by omega), Or.inr (by omega), Or.inr (by omega)⟩

/-- The namespaces of the target on return, and the error, loop by loop. -/
theorem run_Clusters (h : ¬ ambiguousOverride flags.overrideName sourceConfig) :
    (run flags sourceConfig config).1.Clusters = (clusterLoop flags sourceConfig config).1 := by
  rw [run_eq, if_neg h]
  split
  · rfl
  · split <;> rfl

theorem run_of_clusterLoop_error (h : ¬ ambiguousOverride flags.overrideName sourceConfig)
    (e : MergeError) (he : (clusterLoop flags sourceConfig config).2 = some e) :
    run flags sourceConfig config =
      ({ config with Clusters := (clusterLoop flags sourceConfig config).1 }, some e) := by
  rw [run_eq, if_neg h, he]
  simp

theorem run_of_contextLoop_error (h : ¬ ambiguousOverride flags.overrideName sourceConfig)
    (hc : (clusterLoop flags sourceConfig config).2 = none)
    (e : MergeError) (he : (contextLoop flags sourceConfig config).2 = some e) :
    run flags sourceConfig config =
      ({ config with
          Clusters := (clusterLoop flags sourceConfig config).1
          Contexts := (contextLoop flags sourceConfig config).1 }, some e) := by
  rw [run_eq, if_neg h, hc, he]
  simp

theorem run_of_loops (h : ¬ ambiguousOverride flags.overrideName sourceConfig)
    (hc : (clusterLoop flags sourceConfig config).2 = none)
    (hx : (contextLoop flags sourceConfig config).2 = none) :
    run flags sourceConfig config =
      ({ config with
          Clusters := (clusterLoop flags sourceConfig config).1
          Contexts := (contextLoop flags sourceConfig config).1
          AuthInfos := (userLoop flags sourceConfig config).1 },
        (userLoop flags sourceConfig config).2) := by
  rw [run_eq, if_neg h, hc, hx]
  simp

/-- A run without error passed the guard of line 91 and ran each loop to the end. -/
theorem run_ok_iff :
    (run flags sourceConfig config).2 = none ↔
      ¬ ambiguousOverride flags.overrideName sourceConfig ∧
      (clusterLoop flags sourceConfig config).2 = none ∧
      (contextLoop flags sourceConfig config).2 = none ∧
      (userLoop flags sourceConfig config).2 = none := by
  by_cases h : ambiguousOverride flags.overrideName sourceConfig
  · simp [run_ambiguous flags sourceConfig config h, h]
  · rcases hc : (clusterLoop flags sourceConfig config).2 with _ | e
    · rcases hx : (contextLoop flags sourceConfig config).2 with _ | e
      · rw [run_of_loops flags sourceConfig config h hc hx]
        simp [h]
      · rw [run_of_contextLoop_error flags sourceConfig config h hc e hx]
        simp
    · rw [run_of_clusterLoop_error flags sourceConfig config h e hc]
      simp

/-- An error of a run over a well-formed source is the error of the guard, or a collision
with an entry the target had before the run. -/
theorem run_error_sound (hwf : sourceConfig.WF) (e : MergeError)
    (he : (run flags sourceConfig config).2 = some e) :
    (ambiguousOverride flags.overrideName sourceConfig ∧ e = .nameOverride) ∨
    (¬ ambiguousOverride flags.overrideName sourceConfig ∧ flags.override = false ∧
      ∃ kind T, e = .alreadyExists kind T ∧ T ∈ sourceConfig.targetNames flags kind ∧
        config.hasKey kind T) := by
  by_cases h : ambiguousOverride flags.overrideName sourceConfig
  · left
    rw [run_ambiguous flags sourceConfig config h] at he
    simp only [Option.some.injEq] at he
    exact ⟨h, he.symm⟩
  · right
    obtain ⟨p1, p2, p3⟩ := not_ambiguous flags sourceConfig h
    obtain ⟨w1, w2, w3⟩ := hwf
    refine ⟨h, ?_⟩
    rcases hc : (clusterLoop flags sourceConfig config).2 with _ | e1
    · rcases hx : (contextLoop flags sourceConfig config).2 with _ | e2
      · rw [run_of_loops flags sourceConfig config h hc hx] at he
        obtain ⟨ho, T, hT, heq, hin⟩ := rangeEntries_error _ _ _ _ _ _ e he
          (targetNames_nodup flags.overrideName flags.pfx _ p3 w3)
        exact ⟨ho, .user, T, heq, hT, hin⟩
      · rw [run_of_contextLoop_error flags sourceConfig config h hc e2 hx] at he
        simp only [Option.some.injEq] at he
        subst he
        obtain ⟨ho, T, hT, heq, hin⟩ := rangeEntries_error _ _ _ _ _ _ e2 hx
          (targetNames_nodup flags.overrideName flags.pfx _ p2 w2)
        exact ⟨ho, .context, T, heq, hT, hin⟩
    · rw [run_of_clusterLoop_error flags sourceConfig config h e1 hc] at he
      simp only [Option.some.injEq] at he
      subst he
      obtain ⟨ho, T, hT, heq, hin⟩ := rangeEntries_error _ _ _ _ _ _ e1 hc
        (targetNames_nodup flags.overrideName flags.pfx _ p1 w1)
      exact ⟨ho, .cluster, T, heq, hT, hin⟩

/-- With `override` off, a target name of the source that the target already has makes a
run that passed the guard return an error. -/
theorem run_error_of_collision (ho : flags.override = false) (kind : Kind) (T : String)
    (hT : T ∈ sourceConfig.targetNames flags kind) (hin : config.hasKey kind T) :
    ∃ e, (run flags sourceConfig config).2 = some e := by
  rcases hr : (run flags sourceConfig config).2 with _ | e
  · exfalso
    obtain ⟨_, hc, hx, hu⟩ := (run_ok_iff flags sourceConfig config).1 hr
    cases kind with
    | cluster =>
      obtain ⟨T, hT⟩ := rangeEntries_collision .cluster flags.override
        (fun name => getTargetName name flags.overrideName flags.pfx) (copyCluster flags.server)
        sourceConfig.Clusters config.Clusters ho ⟨T, hT, hin⟩
      rw [hc] at hT
      simp at hT
    | context =>
      obtain ⟨T, hT⟩ := rangeEntries_collision .context flags.override
        (fun name => getTargetName name flags.overrideName flags.pfx)
        (copyContext flags.overrideName flags.pfx)
        sourceConfig.Contexts config.Contexts ho ⟨T, hT, hin⟩
      rw [hx] at hT
      simp at hT
    | user =>
      obtain ⟨T, hT⟩ := rangeEntries_collision .user flags.override
        (fun name => getTargetName name flags.overrideName flags.pfx) (fun user => user)
        sourceConfig.AuthInfos config.AuthInfos ho ⟨T, hT, hin⟩
      rw [hu] at hT
      simp at hT
  · exact ⟨e, rfl⟩

/-- A run without error, as the three loops. -/
theorem run_of_ok (hok : (run flags sourceConfig config).2 = none) :
    run flags sourceConfig config =
      ({ config with
          Clusters := (clusterLoop flags sourceConfig config).1
          Contexts := (contextLoop flags sourceConfig config).1
          AuthInfos := (userLoop flags sourceConfig config).1 }, none) := by
  obtain ⟨h, hc, hx, hu⟩ := (run_ok_iff flags sourceConfig config).1 hok
  rw [run_of_loops flags sourceConfig config h hc hx, hu]

/-- The fields of the target that are no namespace are those of the call. -/
theorem run_fields :
    (run flags sourceConfig config).1.CurrentContext = config.CurrentContext ∧
      (run flags sourceConfig config).1.Preferences = config.Preferences ∧
      (run flags sourceConfig config).1.Extensions = config.Extensions := by
  rw [run_eq]
  split
  · exact ⟨rfl, rfl, rfl⟩
  · split
    · exact ⟨rfl, rfl, rfl⟩
    · split <;> exact ⟨rfl, rfl, rfl⟩

/-- Each namespace of the target on return is the one of the call or the one its loop left. -/
theorem run_Clusters_cases :
    (run flags sourceConfig config).1.Clusters = config.Clusters ∨
      (run flags sourceConfig config).1.Clusters = (clusterLoop flags sourceConfig config).1 := by
  rw [run_eq]
  split
  · exact Or.inl rfl
  · split
    · exact Or.inr rfl
    · split <;> exact Or.inr rfl

theorem run_Contexts_cases :
    (run flags sourceConfig config).1.Contexts = config.Contexts ∨
      (run flags sourceConfig config).1.Contexts = (contextLoop flags sourceConfig config).1 := by
  rw [run_eq]
  split
  · exact Or.inl rfl
  · split
    · exact Or.inl rfl
    · split <;> exact Or.inr rfl

theorem run_AuthInfos_cases :
    (run flags sourceConfig config).1.AuthInfos = config.AuthInfos ∨
      (run flags sourceConfig config).1.AuthInfos = (userLoop flags sourceConfig config).1 := by
  rw [run_eq]
  split
  · exact Or.inl rfl
  · split
    · exact Or.inl rfl
    · split
      · exact Or.inl rfl
      · exact Or.inr rfl

/-- The target names of a well-formed source that passed the guard are distinct. -/
theorem run_targets_nodup (hwf : sourceConfig.WF)
    (h : ¬ ambiguousOverride flags.overrideName sourceConfig) :
    (targetNames flags.overrideName flags.pfx sourceConfig.Clusters).Nodup ∧
      (targetNames flags.overrideName flags.pfx sourceConfig.Contexts).Nodup ∧
      (targetNames flags.overrideName flags.pfx sourceConfig.AuthInfos).Nodup := by
  obtain ⟨p1, p2, p3⟩ := not_ambiguous flags sourceConfig h
  exact ⟨targetNames_nodup _ _ _ p1 hwf.1, targetNames_nodup _ _ _ p2 hwf.2.1,
    targetNames_nodup _ _ _ p3 hwf.2.2⟩

/-- With `override` off and distinct target names, a loop runs to the end exactly when no
source entry of its kind collides with the target. -/
theorem clusterLoop_ok_iff (hwf : sourceConfig.WF)
    (h : ¬ ambiguousOverride flags.overrideName sourceConfig) (ho : flags.override = false) :
    (clusterLoop flags sourceConfig config).2 = none ↔
      ¬ collides flags sourceConfig config .cluster := by
  rw [rangeEntries_ok_iff .cluster flags.override
    (fun name => getTargetName name flags.overrideName flags.pfx) (copyCluster flags.server)
    sourceConfig.Clusters config.Clusters (run_targets_nodup flags sourceConfig hwf h).1]
  simp only [ho, Bool.false_eq_true, false_or, collides, SourceConfig.targetNames,
    Config.hasKey, targetNames, not_exists, not_and, Bool.not_eq_true, Option.not_isSome,
    Option.isNone_iff_eq_none]

theorem contextLoop_ok_iff (hwf : sourceConfig.WF)
    (h : ¬ ambiguousOverride flags.overrideName sourceConfig) (ho : flags.override = false) :
    (contextLoop flags sourceConfig config).2 = none ↔
      ¬ collides flags sourceConfig config .context := by
  rw [rangeEntries_ok_iff .context flags.override
    (fun name => getTargetName name flags.overrideName flags.pfx) (copyContext flags.overrideName flags.pfx)
    sourceConfig.Contexts config.Contexts (run_targets_nodup flags sourceConfig hwf h).2.1]
  simp only [ho, Bool.false_eq_true, false_or, collides, SourceConfig.targetNames,
    Config.hasKey, targetNames, not_exists, not_and, Bool.not_eq_true, Option.not_isSome,
    Option.isNone_iff_eq_none]

theorem userLoop_ok_iff (hwf : sourceConfig.WF)
    (h : ¬ ambiguousOverride flags.overrideName sourceConfig) (ho : flags.override = false) :
    (userLoop flags sourceConfig config).2 = none ↔
      ¬ collides flags sourceConfig config .user := by
  rw [rangeEntries_ok_iff .user flags.override
    (fun name => getTargetName name flags.overrideName flags.pfx) (fun user => user)
    sourceConfig.AuthInfos config.AuthInfos (run_targets_nodup flags sourceConfig hwf h).2.2]
  simp only [ho, Bool.false_eq_true, false_or, collides, SourceConfig.targetNames,
    Config.hasKey, targetNames, not_exists, not_and, Bool.not_eq_true, Option.not_isSome,
    Option.isNone_iff_eq_none]

/-- A run that returns a collision of kind context ran the cluster loop to the end. -/
theorem clusterLoop_ok_of_context_error (T : String)
    (he : (run flags sourceConfig config).2 = some (.alreadyExists .context T)) :
    ¬ ambiguousOverride flags.overrideName sourceConfig ∧
      (clusterLoop flags sourceConfig config).2 = none := by
  have h : ¬ ambiguousOverride flags.overrideName sourceConfig := by
    intro h
    rw [run_ambiguous flags sourceConfig config h] at he
    cases he
  refine ⟨h, ?_⟩
  rcases hc : (clusterLoop flags sourceConfig config).2 with _ | e
  · rfl
  · obtain ⟨U, rfl⟩ := rangeEntries_error_kind _ _ _ _ _ _ e hc
    rw [run_of_clusterLoop_error flags sourceConfig config h _ hc] at he
    cases he

/-- A run that returns a collision of kind user ran the cluster loop and the context loop to
the end. -/
theorem loops_ok_of_user_error (T : String)
    (he : (run flags sourceConfig config).2 = some (.alreadyExists .user T)) :
    ¬ ambiguousOverride flags.overrideName sourceConfig ∧
      (clusterLoop flags sourceConfig config).2 = none ∧
      (contextLoop flags sourceConfig config).2 = none := by
  have h : ¬ ambiguousOverride flags.overrideName sourceConfig := by
    intro h
    rw [run_ambiguous flags sourceConfig config h] at he
    cases he
  have hc : (clusterLoop flags sourceConfig config).2 = none := by
    rcases hc : (clusterLoop flags sourceConfig config).2 with _ | e
    · rfl
    · obtain ⟨U, rfl⟩ := rangeEntries_error_kind _ _ _ _ _ _ e hc
      rw [run_of_clusterLoop_error flags sourceConfig config h _ hc] at he
      cases he
  refine ⟨h, hc, ?_⟩
  rcases hx : (contextLoop flags sourceConfig config).2 with _ | e
  · rfl
  · obtain ⟨U, rfl⟩ := rangeEntries_error_kind _ _ _ _ _ _ e hx
    rw [run_of_contextLoop_error flags sourceConfig config h hc _ hx] at he
    cases he

end Run

/-! ## The name transform (section 4.1 of the specification) -/

/-- C1: with a non-empty override name, `getTargetName` returns the prefix followed by the
override name, and the source name has no influence on the result. -/
theorem getTargetName_overrideName (name overrideName pfx : String) (h : overrideName ≠ "") :
    getTargetName name overrideName pfx = pfx ++ overrideName ∧
      ∀ other : String,
        getTargetName other overrideName pfx = getTargetName name overrideName pfx := by
  simp [getTargetName, h]

theorem getTargetName_overrideName_witness :
    "k3s" ≠ "" ∧ (getTargetName "default" "k3s" "p-" = "p-" ++ "k3s" ∧
      ∀ other : String, getTargetName other "k3s" "p-" = getTargetName "default" "k3s" "p-") :=
  ⟨by decide, getTargetName_overrideName "default" "k3s" "p-" (by decide)⟩

/-- C2: with an empty override name, `getTargetName` returns the prefix followed by the
source name; with an empty prefix as well, it returns the source name. -/
theorem getTargetName_empty_overrideName (name pfx : String) :
    getTargetName name "" pfx = pfx ++ name ∧ getTargetName name "" "" = name := by
  simp [getTargetName]

/-! ## The guard of line 91 (section 4.2) -/

/-- C3: when the override name is non-empty and the source has more than one cluster, more
than one context or more than one user, the merge returns the error of the guard and the
target document on return is the target document of the call. -/
theorem run_rejects_ambiguous_override (flags : Flags) (sourceConfig : SourceConfig)
    (config : Config) (hname : flags.overrideName ≠ "")
    (hmany : sourceConfig.Clusters.length > 1 ∨ sourceConfig.Contexts.length > 1 ∨
      sourceConfig.AuthInfos.length > 1) :
    (run flags sourceConfig config).2 = some .nameOverride ∧
      (run flags sourceConfig config).1 = config := by
  have h : ambiguousOverride flags.overrideName sourceConfig := ⟨hname, hmany⟩
  rw [run_ambiguous flags sourceConfig config h]
  exact ⟨rfl, rfl⟩

theorem run_rejects_ambiguous_override_witness :
    (run ⟨false, "", "foo", ""⟩ twoClusterSource sampleTarget).2 = some .nameOverride ∧
      (run ⟨false, "", "foo", ""⟩ twoClusterSource sampleTarget).1 = sampleTarget :=
  run_rejects_ambiguous_override ⟨false, "", "foo", ""⟩ twoClusterSource sampleTarget
    (by decide) (by decide)

/-! ## The contexts (section 4.3, step 6) -/

/-- C4: after a merge that succeeds, the context stored under the target name of a source
context refers to the target name of the cluster and to the target name of the user the
source context refers to.  The source is any list of entries with distinct keys, so the
statement holds for every order of iteration. -/
theorem run_rewrites_references (flags : Flags) (sourceConfig : SourceConfig) (config : Config)
    (hwf : sourceConfig.WF) (hok : (run flags sourceConfig config).2 = none)
    (name : String) (context : Context) (hmem : (name, context) ∈ sourceConfig.Contexts) :
    ∃ stored : Context,
      entry (run flags sourceConfig config).1.Contexts
          (getTargetName name flags.overrideName flags.pfx) = some stored ∧
        stored.Cluster = getTargetName context.Cluster flags.overrideName flags.pfx ∧
        stored.AuthInfo = getTargetName context.AuthInfo flags.overrideName flags.pfx := by
  obtain ⟨h, hc, hx, _⟩ := (run_ok_iff flags sourceConfig config).1 hok
  obtain ⟨_, p2, _⟩ := not_ambiguous flags sourceConfig h
  rw [run_of_loops flags sourceConfig config h hc hx]
  refine ⟨copyContext flags.overrideName flags.pfx context, ?_, rfl, rfl⟩
  exact rangeEntries_stored .context flags.override
    (fun name => getTargetName name flags.overrideName flags.pfx)
    (copyContext flags.overrideName flags.pfx) sourceConfig.Contexts config.Contexts hx
    (targetNames_nodup flags.overrideName flags.pfx _ p2 hwf.2.1) name context hmem

theorem run_rewrites_references_witness :
    ∃ stored : Context,
      entry (run ⟨true, "", "", "p-"⟩ twoClusterSource sampleTarget).1.Contexts
          (getTargetName "x1" "" "p-") = some stored ∧
        stored.Cluster = getTargetName "A" "" "p-" ∧
        stored.AuthInfo = getTargetName "u1" "" "p-" :=
  run_rewrites_references ⟨true, "", "", "p-"⟩ twoClusterSource sampleTarget (by decide)
    (by decide) "x1" ⟨"A", "u1", "", []⟩ (by decide)

/-! ## Collisions (section 4.3, steps 2 and 3) -/

/-- C5: with `override` off and a source that passes the guard, if the target name of some
source entry is a key of the target namespace of its kind before the merge, the merge
returns a collision error; the error carries a kind and a name, its text starts with the
word of the kind followed by the quoted name, the name was a key of the target namespace of
that kind before the merge, and it is the target name of a source entry of that kind. -/
theorem run_reports_collision (flags : Flags) (sourceConfig : SourceConfig) (config : Config)
    (hwf : sourceConfig.WF) (hoff : flags.override = false)
    (hpass : ¬ ambiguousOverride flags.overrideName sourceConfig)
    (hcol : ∃ kind T, T ∈ sourceConfig.targetNames flags kind ∧ config.hasKey kind T) :
    ∃ kind T, (run flags sourceConfig config).2 = some (.alreadyExists kind T) ∧
      (MergeError.alreadyExists kind T).message =
        kind.word ++ " '" ++ T ++ "' does already exist in target config" ∧
      config.hasKey kind T ∧ T ∈ sourceConfig.targetNames flags kind := by
  obtain ⟨kind, T, hT, hin⟩ := hcol
  obtain ⟨e, he⟩ := run_error_of_collision flags sourceConfig config hoff kind T hT hin
  rcases run_error_sound flags sourceConfig config hwf e he with ⟨h, _⟩ | ⟨_, _, k, U, rfl, hU, hk⟩
  · exact absurd h hpass
  · exact ⟨k, U, he, rfl, hk, hU⟩

theorem run_reports_collision_witness :
    ∃ kind T, (run ⟨false, "", "", ""⟩ twoClusterSource sampleTarget).2 =
        some (.alreadyExists kind T) ∧
      (MergeError.alreadyExists kind T).message =
        kind.word ++ " '" ++ T ++ "' does already exist in target config" ∧
      sampleTarget.hasKey kind T ∧
      T ∈ twoClusterSource.targetNames ⟨false, "", "", ""⟩ kind :=
  run_reports_collision ⟨false, "", "", ""⟩ twoClusterSource sampleTarget (by decide)
    (by decide) (by decide) ⟨.cluster, "A", by decide, by decide⟩

/-- C6, as stated, fails: with a non-empty override name and a source with two clusters, the
source has a cluster whose target name `foo` is a cluster of the target and `override` is
off, yet the merge returns the error of the guard of line 91, not a collision error. -/
theorem run_collision_guard_first :
    (⟨false, "", "foo", ""⟩ : Flags).override = false ∧
      ("A", (⟨"https://a", []⟩ : Cluster)) ∈ twoClusterSource.Clusters ∧
      getTargetName "A" "foo" "" = "foo" ∧
      (entry sampleTarget.Clusters "foo").isSome ∧
      (run ⟨false, "", "foo", ""⟩ twoClusterSource sampleTarget).2 = some .nameOverride ∧
      ¬ ∃ kind T, (run ⟨false, "", "foo", ""⟩ twoClusterSource sampleTarget).2 =
        some (.alreadyExists kind T) := by
  refine ⟨rfl, by decide, by decide, by decide, by decide, ?_⟩
  rintro ⟨kind, T, h⟩
  have hrun : (run ⟨false, "", "foo", ""⟩ twoClusterSource sampleTarget).2 =
      some .nameOverride := by decide
  rw [hrun] at h
  cases h

/-- C6, amended: merging a source that has a cluster whose target name is `X` into a target
that has a cluster `X`, with `override` off, fails: with a collision error of kind cluster
when the source passes the guard of line 91, with the error of the guard otherwise.  The
entry of the target under `X` keeps its value, and every cluster, context and user that the
target had before the call is in the target after the call under the same name with the
same value. -/
theorem run_collision_keeps_target (flags : Flags) (sourceConfig : SourceConfig)
    (config : Config) (hoff : flags.override = false)
    (name : String) (cluster : Cluster) (hmem : (name, cluster) ∈ sourceConfig.Clusters)
    (X : String) (hX : getTargetName name flags.overrideName flags.pfx = X)
    (old : Cluster) (hold : entry config.Clusters X = some old) :
    (¬ ambiguousOverride flags.overrideName sourceConfig →
        ∃ T, (run flags sourceConfig config).2 = some (.alreadyExists .cluster T)) ∧
      (ambiguousOverride flags.overrideName sourceConfig →
        (run flags sourceConfig config).2 = some .nameOverride) ∧
      entry (run flags sourceConfig config).1.Clusters X = some old ∧
      (∀ k v, entry config.Clusters k = some v →
        entry (run flags sourceConfig config).1.Clusters k = some v) ∧
      (∀ k v, entry config.Contexts k = some v →
        entry (run flags sourceConfig config).1.Contexts k = some v) ∧
      (∀ k v, entry config.AuthInfos k = some v →
        entry (run flags sourceConfig config).1.AuthInfos k = some v) := by
  by_cases h : ambiguousOverride flags.overrideName sourceConfig
  · rw [run_ambiguous flags sourceConfig config h]
    exact ⟨fun hn => absurd h hn, fun _ => rfl, hold, fun _ _ hk => hk, fun _ _ hk => hk,
      fun _ _ hk => hk⟩
  · have hcol : ∃ T, T ∈ sourceConfig.Clusters.map
        (fun e => (fun name => getTargetName name flags.overrideName flags.pfx) e.1) ∧
        (entry config.Clusters T).isSome := by
      refine ⟨X, ?_, by rw [hold]; rfl⟩
      rw [List.mem_map]
      exact ⟨(name, cluster), hmem, hX⟩
    obtain ⟨T, hT⟩ := rangeEntries_collision .cluster flags.override
      (fun name => getTargetName name flags.overrideName flags.pfx) (copyCluster flags.server)
      sourceConfig.Clusters config.Clusters hoff hcol
    have hframe : ∀ k v, entry config.Clusters k = some v →
        entry (clusterLoop flags sourceConfig config).1 k = some v := fun k v hk =>
      rangeEntries_frame .cluster flags.override
        (fun name => getTargetName name flags.overrideName flags.pfx) (copyCluster flags.server)
        sourceConfig.Clusters config.Clusters k v hk (Or.inl hoff)
    rw [run_of_clusterLoop_error flags sourceConfig config h _ hT]
    exact ⟨fun _ => ⟨T, rfl⟩, fun ha => absurd ha h, hframe X old hold, hframe,
      fun _ _ hk => hk, fun _ _ hk => hk⟩

theorem run_collision_keeps_target_witness :
    (∃ T, (run ⟨false, "https://s", "", ""⟩ twoClusterSource sampleTarget).2 =
        some (.alreadyExists .cluster T)) ∧
      entry (run ⟨false, "https://s", "", ""⟩ twoClusterSource sampleTarget).1.Clusters "A" =
        some ⟨"https://old-a", []⟩ :=
  have h := run_collision_keeps_target ⟨false, "https://s", "", ""⟩ twoClusterSource
    sampleTarget rfl "A" ⟨"https://a", []⟩ (by decide) "A" (by decide) ⟨"https://old-a", []⟩
    (by decide)
  ⟨h.1 (by decide), h.2.2.1⟩

/-- C7: with `override` on and a source that passes the guard, for a source cluster whose
target name is a key of the clusters of the target, the merge succeeds and the target then
has, under that name, the source cluster, with the server override as its server when that
override is non-empty: the entry the target had is replaced. -/
theorem run_override_replaces (flags : Flags) (sourceConfig : SourceConfig) (config : Config)
    (hwf : sourceConfig.WF) (hon : flags.override = true)
    (hpass : ¬ ambiguousOverride flags.overrideName sourceConfig)
    (name : String) (cluster : Cluster) (hmem : (name, cluster) ∈ sourceConfig.Clusters)
    (old : Cluster)
    (_hkey : entry config.Clusters (getTargetName name flags.overrideName flags.pfx) = some old) :
    (run flags sourceConfig config).2 = none ∧
      entry (run flags sourceConfig config).1.Clusters
          (getTargetName name flags.overrideName flags.pfx) =
        some (if flags.server ≠ "" then { cluster with Server := flags.server } else cluster) := by
  have hc := rangeEntries_ok .cluster flags.override
    (fun name => getTargetName name flags.overrideName flags.pfx) (copyCluster flags.server)
    sourceConfig.Clusters config.Clusters (Or.inl hon)
  have hx := rangeEntries_ok .context flags.override
    (fun name => getTargetName name flags.overrideName flags.pfx)
    (copyContext flags.overrideName flags.pfx)
    sourceConfig.Contexts config.Contexts (Or.inl hon)
  have hu := rangeEntries_ok .user flags.override
    (fun name => getTargetName name flags.overrideName flags.pfx) (fun user => user)
    sourceConfig.AuthInfos config.AuthInfos (Or.inl hon)
  refine ⟨(run_ok_iff flags sourceConfig config).2 ⟨hpass, hc, hx, hu⟩, ?_⟩
  rw [run_Clusters flags sourceConfig config hpass]
  exact rangeEntries_stored .cluster flags.override
    (fun name => getTargetName name flags.overrideName flags.pfx) (copyCluster flags.server)
    sourceConfig.Clusters config.Clusters hc
    (targetNames_nodup flags.overrideName flags.pfx _
      (not_ambiguous flags sourceConfig hpass).1 hwf.1) name cluster hmem

theorem run_override_replaces_witness :
    entry sampleTarget.Clusters (getTargetName "A" "" "") = some ⟨"https://old-a", []⟩ ∧
      (run ⟨true, "https://s", "", ""⟩ twoClusterSource sampleTarget).2 = none ∧
      entry (run ⟨true, "https://s", "", ""⟩ twoClusterSource sampleTarget).1.Clusters
          (getTargetName "A" "" "") =
        some (if "https://s" ≠ "" then { (⟨"https://a", []⟩ : Cluster) with Server := "https://s" }
          else ⟨"https://a", []⟩) :=
  ⟨by decide, run_override_replaces ⟨true, "https://s", "", ""⟩ twoClusterSource sampleTarget
    (by decide) rfl (by decide) "A" ⟨"https://a", []⟩ (by decide) ⟨"https://old-a", []⟩
    (by decide)⟩

/-- C8: with a non-empty server override, after a merge that succeeds the cluster stored
under the target name of a source cluster has the override as its server, whatever server
the source cluster had. -/
theorem run_server_override (flags : Flags) (sourceConfig : SourceConfig) (config : Config)
    (hserver : flags.server ≠ "") (hok : (run flags sourceConfig config).2 = none)
    (name : String) (cluster : Cluster) (hmem : (name, cluster) ∈ sourceConfig.Clusters) :
    ∃ stored : Cluster,
      entry (run flags sourceConfig config).1.Clusters
          (getTargetName name flags.overrideName flags.pfx) = some stored ∧
        stored.Server = flags.server := by
  obtain ⟨h, hc, _, _⟩ := (run_ok_iff flags sourceConfig config).1 hok
  rw [run_Clusters flags sourceConfig config h]
  exact rangeEntries_stored_of .cluster flags.override
    (fun name => getTargetName name flags.overrideName flags.pfx) (copyCluster flags.server)
    (fun c => c.Server = flags.server) (fun v => by simp [copyCluster, hserver])
    sourceConfig.Clusters config.Clusters hc name cluster hmem

theorem run_server_override_witness :
    (∃ stored : Cluster,
      entry (run ⟨false, "https://s", "", ""⟩ twoClusterSource emptyConfig).1.Clusters
          (getTargetName "A" "" "") = some stored ∧ stored.Server = "https://s") ∧
    (∃ stored : Cluster,
      entry (run ⟨false, "https://s", "", ""⟩ twoClusterSource emptyConfig).1.Clusters
          (getTargetName "B" "" "") = some stored ∧ stored.Server = "https://s") :=
  ⟨run_server_override ⟨false, "https://s", "", ""⟩ twoClusterSource emptyConfig (by decide)
      (by decide) "A" ⟨"https://a", []⟩ (by decide),
    run_server_override ⟨false, "https://s", "", ""⟩ twoClusterSource emptyConfig (by decide)
      (by decide) "B" ⟨"https://b", []⟩ (by decide)⟩

/-! ## Failure and success (section 4.4) -/

/-- C9: the merge returns an error exactly when the guard of line 91 rejects the source, or
`override` is off and, in some namespace, the target name of a source entry is a key of the
namespace of the target before the merge.  With `override` on and a source that passes the
guard, the merge does not fail.  The source is any list of entries with distinct keys, so
the statement holds for every order of iteration. -/
theorem run_error_iff (flags : Flags) (sourceConfig : SourceConfig) (config : Config)
    (hwf : sourceConfig.WF) :
    ((run flags sourceConfig config).2 ≠ none ↔
      (ambiguousOverride flags.overrideName sourceConfig ∨
        (flags.override = false ∧
          ∃ kind T, T ∈ sourceConfig.targetNames flags kind ∧ config.hasKey kind T))) ∧
    (flags.override = true → ¬ ambiguousOverride flags.overrideName sourceConfig →
      (run flags sourceConfig config).2 = none) := by
  have hiff : (run flags sourceConfig config).2 ≠ none ↔
      (ambiguousOverride flags.overrideName sourceConfig ∨
        (flags.override = false ∧
          ∃ kind T, T ∈ sourceConfig.targetNames flags kind ∧ config.hasKey kind T)) := by
    constructor
    · intro hne
      rcases he : (run flags sourceConfig config).2 with _ | e
      · exact absurd he hne
      · rcases run_error_sound flags sourceConfig config hwf e he with
          ⟨h, _⟩ | ⟨_, ho, kind, T, _, hT, hin⟩
        · exact Or.inl h
        · exact Or.inr ⟨ho, kind, T, hT, hin⟩
    · rintro (h | ⟨ho, kind, T, hT, hin⟩)
      · rw [run_ambiguous flags sourceConfig config h]
        simp
      · obtain ⟨e, he⟩ := run_error_of_collision flags sourceConfig config ho kind T hT hin
        rw [he]
        simp
  refine ⟨hiff, fun hon hpass => ?_⟩
  by_contra hne
  rcases hiff.1 hne with h | ⟨ho, _⟩
  · exact hpass h
  · rw [hon] at ho
    cases ho

theorem run_error_iff_witness :
    ((run ⟨false, "", "", ""⟩ twoClusterSource sampleTarget).2 ≠ none ↔
      (ambiguousOverride "" twoClusterSource ∨
        ((⟨false, "", "", ""⟩ : Flags).override = false ∧
          ∃ kind T, T ∈ twoClusterSource.targetNames ⟨false, "", "", ""⟩ kind ∧
            sampleTarget.hasKey kind T))) ∧
    ((⟨false, "", "", ""⟩ : Flags).override = true → ¬ ambiguousOverride "" twoClusterSource →
      (run ⟨false, "", "", ""⟩ twoClusterSource sampleTarget).2 = none) :=
  run_error_iff ⟨false, "", "", ""⟩ twoClusterSource sampleTarget (by decide)

/-- C10: for a source that passes the guard of line 91, whatever the prefix, the server and
the `override` option, the merge into a target whose clusters, contexts and users hold no
entry (nil or empty maps) succeeds: an entry stored earlier in the run never collides with a
later source entry. -/
theorem run_fresh_target (flags : Flags) (sourceConfig : SourceConfig) (config : Config)
    (hwf : sourceConfig.WF) (hpass : ¬ ambiguousOverride flags.overrideName sourceConfig)
    (hclusters : ∀ k, entry config.Clusters k = none)
    (hcontexts : ∀ k, entry config.Contexts k = none)
    (husers : ∀ k, entry config.AuthInfos k = none) :
    (run flags sourceConfig config).2 = none := by
  obtain ⟨p1, p2, p3⟩ := not_ambiguous flags sourceConfig hpass
  obtain ⟨w1, w2, w3⟩ := hwf
  refine (run_ok_iff flags sourceConfig config).2 ⟨hpass, ?_, ?_, ?_⟩
  · exact rangeEntries_ok _ _ _ _ _ _
      (Or.inr ⟨targetNames_nodup flags.overrideName flags.pfx _ p1 w1, fun T _ => hclusters T⟩)
  · exact rangeEntries_ok _ _ _ _ _ _
      (Or.inr ⟨targetNames_nodup flags.overrideName flags.pfx _ p2 w2, fun T _ => hcontexts T⟩)
  · exact rangeEntries_ok _ _ _ _ _ _
      (Or.inr ⟨targetNames_nodup flags.overrideName flags.pfx _ p3 w3, fun T _ => husers T⟩)

theorem run_fresh_target_witness :
    (run ⟨false, "https://s", "", "p-"⟩ twoClusterSource emptyConfig).2 = none :=
  run_fresh_target ⟨false, "https://s", "", "p-"⟩ twoClusterSource emptyConfig (by decide)
    (by decide) (fun _ => rfl) (fun _ => rfl) (fun _ => rfl)

/-! ## Invariants of the data model (section 3) -/

/-- C11: after a merge that succeeds, a context of the source whose cluster reference names
a cluster of the source and whose user reference names a user of the source is stored under
its target name with a cluster reference that is a key of the clusters of the target and a
user reference that is a key of the users of the target, whatever the override name and the
prefix. -/
theorem run_no_dangling_reference (flags : Flags) (sourceConfig : SourceConfig)
    (config : Config) (hwf : sourceConfig.WF)
    (hok : (run flags sourceConfig config).2 = none)
    (name : String) (context : Context) (hmem : (name, context) ∈ sourceConfig.Contexts)
    (hcluster : context.Cluster ∈ sourceConfig.Clusters.map Prod.fst)
    (huser : context.AuthInfo ∈ sourceConfig.AuthInfos.map Prod.fst) :
    ∃ stored : Context,
      entry (run flags sourceConfig config).1.Contexts
          (getTargetName name flags.overrideName flags.pfx) = some stored ∧
        (entry (run flags sourceConfig config).1.Clusters stored.Cluster).isSome ∧
        (entry (run flags sourceConfig config).1.AuthInfos stored.AuthInfo).isSome := by
  obtain ⟨h, hc, hx, hu⟩ := (run_ok_iff flags sourceConfig config).1 hok
  obtain ⟨_, n2, _⟩ := run_targets_nodup flags sourceConfig hwf h
  rw [run_of_ok flags sourceConfig config hok]
  refine ⟨copyContext flags.overrideName flags.pfx context, ?_, ?_, ?_⟩
  · exact rangeEntries_stored .context flags.override
      (fun name => getTargetName name flags.overrideName flags.pfx)
      (copyContext flags.overrideName flags.pfx) sourceConfig.Contexts config.Contexts hx
      n2 name context hmem
  · obtain ⟨⟨cname, cluster⟩, hcmem, hceq⟩ := List.mem_map.1 hcluster
    simp only at hceq
    subst hceq
    obtain ⟨v, hv, _⟩ := rangeEntries_stored_of .cluster flags.override
      (fun name => getTargetName name flags.overrideName flags.pfx) (copyCluster flags.server)
      (fun _ => True) (fun _ => trivial) sourceConfig.Clusters config.Clusters hc
      _ cluster hcmem
    show (entry (clusterLoop flags sourceConfig config).1
      (getTargetName context.Cluster flags.overrideName flags.pfx)).isSome
    rw [hv]
    rfl
  · obtain ⟨⟨uname, user⟩, humem, hueq⟩ := List.mem_map.1 huser
    simp only at hueq
    subst hueq
    obtain ⟨v, hv, _⟩ := rangeEntries_stored_of .user flags.override
      (fun name => getTargetName name flags.overrideName flags.pfx) (fun user => user)
      (fun _ => True) (fun _ => trivial) sourceConfig.AuthInfos config.AuthInfos hu
      _ user humem
    show (entry (userLoop flags sourceConfig config).1
      (getTargetName context.AuthInfo flags.overrideName flags.pfx)).isSome
    rw [hv]
    rfl

theorem run_no_dangling_reference_witness :
    ∃ stored : Context,
      entry (run ⟨true, "", "", "p-"⟩ twoClusterSource sampleTarget).1.Contexts
          (getTargetName "x1" "" "p-") = some stored ∧
        (entry (run ⟨true, "", "", "p-"⟩ twoClusterSource sampleTarget).1.Clusters
          stored.Cluster).isSome ∧
        (entry (run ⟨true, "", "", "p-"⟩ twoClusterSource sampleTarget).1.AuthInfos
          stored.AuthInfo).isSome :=
  run_no_dangling_reference ⟨true, "", "", "p-"⟩ twoClusterSource sampleTarget (by decide)
    (by decide) "x1" ⟨"A", "u1", "", []⟩ (by decide) (by decide) (by decide)

/-- C12: in every run, failed or not, an entry that the target had before the call is in the
target on return under the same name with the same value, unless `override` is on and the
name is the target name of a source entry of the same namespace; and a name that was a key
of a namespace of the target before the call is a key of it on return. -/
theorem run_keeps_entries (flags : Flags) (sourceConfig : SourceConfig) (config : Config) :
    (∀ k v, entry config.Clusters k = some v →
        ¬ (flags.override = true ∧ k ∈ sourceConfig.targetNames flags .cluster) →
        entry (run flags sourceConfig config).1.Clusters k = some v) ∧
      (∀ k v, entry config.Contexts k = some v →
        ¬ (flags.override = true ∧ k ∈ sourceConfig.targetNames flags .context) →
        entry (run flags sourceConfig config).1.Contexts k = some v) ∧
      (∀ k v, entry config.AuthInfos k = some v →
        ¬ (flags.override = true ∧ k ∈ sourceConfig.targetNames flags .user) →
        entry (run flags sourceConfig config).1.AuthInfos k = some v) ∧
      (∀ k, (entry config.Clusters k).isSome →
        (entry (run flags sourceConfig config).1.Clusters k).isSome) ∧
      (∀ k, (entry config.Contexts k).isSome →
        (entry (run flags sourceConfig config).1.Contexts k).isSome) ∧
      (∀ k, (entry config.AuthInfos k).isSome →
        (entry (run flags sourceConfig config).1.AuthInfos k).isSome) := by
  have hfree : ∀ (k : String) (l : List String),
      ¬ (flags.override = true ∧ k ∈ l) → flags.override = false ∨ k ∉ l := by
    intro k l h
    cases ho : flags.override with
    | false => exact Or.inl rfl
    | true => exact Or.inr fun hk => h ⟨ho, hk⟩
  have hkept : ∀ {V : Type} (kind : Kind) (copy : V → V) (l : List (String × V))
      (ns : Option (NameMap V)) (k : String), (entry ns k).isSome →
      (entry (rangeEntries kind flags.override
        (fun name => getTargetName name flags.overrideName flags.pfx) copy l ns).1 k).isSome := by
    intro V kind copy l ns k hk
    obtain ⟨v, hv⟩ := Option.isSome_iff_exists.1 hk
    obtain ⟨w, hw, _⟩ := rangeEntries_keeps kind flags.override
      (fun name => getTargetName name flags.overrideName flags.pfx) copy (fun _ => True)
      (fun _ => trivial) l ns k ⟨v, hv, trivial⟩
    rw [hw]
    rfl
  refine ⟨fun k v hk hno => ?_, fun k v hk hno => ?_, fun k v hk hno => ?_, fun k hk => ?_,
    fun k hk => ?_, fun k hk => ?_⟩
  · rcases run_Clusters_cases flags sourceConfig config with h | h <;> rw [h]
    · exact hk
    · exact rangeEntries_frame _ _ _ _ _ _ k v hk (hfree k _ hno)
  · rcases run_Contexts_cases flags sourceConfig config with h | h <;> rw [h]
    · exact hk
    · exact rangeEntries_frame _ _ _ _ _ _ k v hk (hfree k _ hno)
  · rcases run_AuthInfos_cases flags sourceConfig config with h | h <;> rw [h]
    · exact hk
    · exact rangeEntries_frame _ _ _ _ _ _ k v hk (hfree k _ hno)
  · rcases run_Clusters_cases flags sourceConfig config with h | h <;> rw [h]
    · exact hk
    · exact hkept _ _ _ _ k hk
  · rcases run_Contexts_cases flags sourceConfig config with h | h <;> rw [h]
    · exact hk
    · exact hkept _ _ _ _ k hk
  · rcases run_AuthInfos_cases flags sourceConfig config with h | h <;> rw [h]
    · exact hk
    · exact hkept _ _ _ _ k hk

theorem run_keeps_entries_witness :
    entry (run ⟨true, "", "", ""⟩ twoClusterSource sampleTarget).1.Clusters "foo" =
        some ⟨"https://old", []⟩ ∧
      (entry (run ⟨true, "", "", ""⟩ twoClusterSource sampleTarget).1.Clusters "A").isSome :=
  ⟨(run_keeps_entries ⟨true, "", "", ""⟩ twoClusterSource sampleTarget).1 "foo"
      ⟨"https://old", []⟩ (by decide) (by decide),
    (run_keeps_entries ⟨true, "", "", ""⟩ twoClusterSource sampleTarget).2.2.2.1 "A"
      (by decide)⟩

/-- C13: whether the merge succeeds or fails, the current context, the preferences and the
extensions of the target on return are those of the call; the current context of the source
has no influence on the run. -/
theorem run_keeps_current_context (flags : Flags) (sourceConfig : SourceConfig)
    (config : Config) :
    (run flags sourceConfig config).1.CurrentContext = config.CurrentContext ∧
      (run flags sourceConfig config).1.Preferences = config.Preferences ∧
      (run flags sourceConfig config).1.Extensions = config.Extensions ∧
      ∀ current : String,
        run flags { sourceConfig with CurrentContext := current } config =
          run flags sourceConfig config := by
  obtain ⟨h1, h2, h3⟩ := run_fields flags sourceConfig config
  exact ⟨h1, h2, h3, fun _ => rfl⟩

/-! ## The scenarios (section 8) -/

/-- C14: merging the source with cluster `c1`, context `x1` and user `u1` into an empty
target with prefix `p-`, `override` off, no server and no override name, succeeds, and the
target then has the cluster `p-c1`, the context `p-x1` that refers to `p-c1` and `p-u1`, and
the user `p-u1`, and nothing else; so for a target with nil maps and for one with empty
maps. -/
theorem run_prefix_scenario :
    run ⟨false, "", "", "p-"⟩ sampleSource emptyConfig =
        (Config.mk (some (Finmap.singleton "p-c1" ⟨"https://a", []⟩))
          (some (Finmap.singleton "p-x1" ⟨"p-c1", "p-u1", "", []⟩))
          (some (Finmap.singleton "p-u1" ⟨"t", []⟩)) "" [] [], none) ∧
      run ⟨false, "", "", "p-"⟩ sampleSource allocatedConfig =
        (Config.mk (some (Finmap.singleton "p-c1" ⟨"https://a", []⟩))
          (some (Finmap.singleton "p-x1" ⟨"p-c1", "p-u1", "", []⟩))
          (some (Finmap.singleton "p-u1" ⟨"t", []⟩)) "" [] [], none) := by
  constructor <;> decide

/-- C15: a source with one cluster, one context and one user, merged with override name
`k3s` and an empty prefix into a target that holds no entry, succeeds; the target then has
one cluster, one context and one user, each under the name `k3s`, and the context refers to
the cluster `k3s` and to the user `k3s`. -/
theorem run_single_name (flags : Flags) (sourceConfig : SourceConfig) (config : Config)
    (hname : flags.overrideName = "k3s") (hpfx : flags.pfx = "")
    (cname : String) (cluster : Cluster) (hcl : sourceConfig.Clusters = [(cname, cluster)])
    (xname : String) (context : Context) (hcx : sourceConfig.Contexts = [(xname, context)])
    (uname : String) (user : AuthInfo) (hus : sourceConfig.AuthInfos = [(uname, user)])
    (hclusters : ∀ k, entry config.Clusters k = none)
    (hcontexts : ∀ k, entry config.Contexts k = none)
    (husers : ∀ k, entry config.AuthInfos k = none) :
    (run flags sourceConfig config).2 = none ∧
      (run flags sourceConfig config).1.Clusters = some (Finmap.singleton "k3s"
        (if flags.server ≠ "" then { cluster with Server := flags.server } else cluster)) ∧
      (run flags sourceConfig config).1.Contexts = some (Finmap.singleton "k3s"
        { context with Cluster := "k3s", AuthInfo := "k3s" }) ∧
      (run flags sourceConfig config).1.AuthInfos = some (Finmap.singleton "k3s" user) := by
  have hpass : ¬ ambiguousOverride flags.overrideName sourceConfig := by
    simp [ambiguousOverride, hcl, hcx, hus]
  have htn : ∀ name, getTargetName name flags.overrideName flags.pfx = "k3s" := by
    intro name
    rw [hname, hpfx]
    unfold getTargetName
    rw [if_pos (by decide)]
    decide
  have hc : clusterLoop flags sourceConfig config =
      (some (Finmap.singleton "k3s" (copyCluster flags.server cluster)), none) := by
    unfold clusterLoop
    rw [hcl, rangeEntries_single _ _ _ _ _ _ _ hclusters, htn]
  have hx : contextLoop flags sourceConfig config =
      (some (Finmap.singleton "k3s" (copyContext flags.overrideName flags.pfx context)),
        none) := by
    unfold contextLoop
    rw [hcx, rangeEntries_single _ _ _ _ _ _ _ hcontexts, htn]
  have hu : userLoop flags sourceConfig config = (some (Finmap.singleton "k3s" user), none) := by
    unfold userLoop
    rw [hus, rangeEntries_single _ _ _ _ _ _ _ husers, htn]
  have hcopy : copyContext flags.overrideName flags.pfx context =
      { context with Cluster := "k3s", AuthInfo := "k3s" } := by
    simp only [copyContext, htn]
  rw [run_of_loops flags sourceConfig config hpass (by rw [hc]) (by rw [hx]), hc, hx, hu, hcopy]
  exact ⟨rfl, rfl, rfl, rfl⟩

theorem run_single_name_witness :
    (run ⟨false, "https://k3s-host", "k3s", ""⟩ sampleSource emptyConfig).2 = none ∧
      (run ⟨false, "https://k3s-host", "k3s", ""⟩ sampleSource emptyConfig).1.Clusters =
        some (Finmap.singleton "k3s"
          (if "https://k3s-host" ≠ "" then
            { (⟨"https://a", []⟩ : Cluster) with Server := "https://k3s-host" }
          else ⟨"https://a", []⟩)) ∧
      (run ⟨false, "https://k3s-host", "k3s", ""⟩ sampleSource emptyConfig).1.Contexts =
        some (Finmap.singleton "k3s"
          { (⟨"c1", "u1", "", []⟩ : Context) with Cluster := "k3s", AuthInfo := "k3s" }) ∧
      (run ⟨false, "https://k3s-host", "k3s", ""⟩ sampleSource emptyConfig).1.AuthInfos =
        some (Finmap.singleton "k3s" ⟨"t", []⟩) :=
  run_single_name ⟨false, "https://k3s-host", "k3s", ""⟩ sampleSource emptyConfig rfl rfl
    "c1" ⟨"https://a", []⟩ rfl "x1" ⟨"c1", "u1", "", []⟩ rfl "u1" ⟨"t", []⟩ rfl
    (fun _ => rfl) (fun _ => rfl) (fun _ => rfl)

/-! ## The order of iteration (section 4.3) -/

/-- C16: for two orders in which the entries of the maps of the source are visited, the
merge fails under both or succeeds under both, and when it succeeds the target document on
return is the same under both orders. -/
theorem run_order_irrelevant (flags : Flags) (sourceConfig sourceConfig' : SourceConfig)
    (config : Config) (hwf : sourceConfig.WF)
    (hcl : sourceConfig.Clusters.Perm sourceConfig'.Clusters)
    (hcx : sourceConfig.Contexts.Perm sourceConfig'.Contexts)
    (hus : sourceConfig.AuthInfos.Perm sourceConfig'.AuthInfos) :
    ((run flags sourceConfig config).2 = none ↔ (run flags sourceConfig' config).2 = none) ∧
      ((run flags sourceConfig config).2 = none →
        (run flags sourceConfig config).1 = (run flags sourceConfig' config).1) := by
  have hamb : ambiguousOverride flags.overrideName sourceConfig ↔
      ambiguousOverride flags.overrideName sourceConfig' := by
    unfold ambiguousOverride
    rw [hcl.length_eq, hcx.length_eq, hus.length_eq]
  have pc := rangeEntries_ok_perm .cluster flags.override
    (fun name => getTargetName name flags.overrideName flags.pfx) (copyCluster flags.server)
    sourceConfig.Clusters sourceConfig'.Clusters config.Clusters hcl
  have px := rangeEntries_ok_perm .context flags.override
    (fun name => getTargetName name flags.overrideName flags.pfx)
    (copyContext flags.overrideName flags.pfx)
    sourceConfig.Contexts sourceConfig'.Contexts config.Contexts hcx
  have pu := rangeEntries_ok_perm .user flags.override
    (fun name => getTargetName name flags.overrideName flags.pfx) (fun user => user)
    sourceConfig.AuthInfos sourceConfig'.AuthInfos config.AuthInfos hus
  have hiff : (run flags sourceConfig config).2 = none ↔
      (run flags sourceConfig' config).2 = none := by
    rw [run_ok_iff, run_ok_iff, ← hamb]
    constructor
    · rintro ⟨h, hc, hx, hu⟩
      obtain ⟨n1, n2, n3⟩ := run_targets_nodup flags sourceConfig hwf h
      exact ⟨h, (pc n1).1 hc, (px n2).1 hx, (pu n3).1 hu⟩
    · rintro ⟨h, hc, hx, hu⟩
      obtain ⟨n1, n2, n3⟩ := run_targets_nodup flags sourceConfig hwf h
      exact ⟨h, (pc n1).2 hc, (px n2).2 hx, (pu n3).2 hu⟩
  refine ⟨hiff, fun hok => ?_⟩
  have hok' := hiff.1 hok
  obtain ⟨h, hc, hx, hu⟩ := (run_ok_iff flags sourceConfig config).1 hok
  obtain ⟨_, hc', hx', hu'⟩ := (run_ok_iff flags sourceConfig' config).1 hok'
  obtain ⟨n1, n2, n3⟩ := run_targets_nodup flags sourceConfig hwf h
  rw [run_of_ok flags sourceConfig config hok, run_of_ok flags sourceConfig' config hok']
  have e1 := rangeEntries_perm .cluster flags.override
    (fun name => getTargetName name flags.overrideName flags.pfx) (copyCluster flags.server)
    sourceConfig.Clusters sourceConfig'.Clusters config.Clusters hcl n1 hc hc'
  have e2 := rangeEntries_perm .context flags.override
    (fun name => getTargetName name flags.overrideName flags.pfx)
    (copyContext flags.overrideName flags.pfx)
    sourceConfig.Contexts sourceConfig'.Contexts config.Contexts hcx n2 hx hx'
  have e3 := rangeEntries_perm .user flags.override
    (fun name => getTargetName name flags.overrideName flags.pfx) (fun user => user)
    sourceConfig.AuthInfos sourceConfig'.AuthInfos config.AuthInfos hus n3 hu hu'
  show Config.mk _ _ _ _ _ _ = Config.mk _ _ _ _ _ _
  rw [e1, e2, e3]

theorem run_order_irrelevant_witness :
    ((run ⟨false, "", "", "p-"⟩ twoClusterSource sampleTarget).2 = none ↔
        (run ⟨false, "", "", "p-"⟩ twoClusterSourceSwapped sampleTarget).2 = none) ∧
      ((run ⟨false, "", "", "p-"⟩ twoClusterSource sampleTarget).2 = none →
        (run ⟨false, "", "", "p-"⟩ twoClusterSource sampleTarget).1 =
          (run ⟨false, "", "", "p-"⟩ twoClusterSourceSwapped sampleTarget).1) :=
  run_order_irrelevant ⟨false, "", "", "p-"⟩ twoClusterSource twoClusterSourceSwapped
    sampleTarget (by decide) (List.Perm.swap _ _ _) (List.Perm.refl _) (List.Perm.refl _)

/-! ## Collisions are found loop by loop (section 7) -/

/-- C17: when the merge fails with a collision of kind context, every cluster of the source
is in the target on return, under its target name; when it fails with a collision of kind
user, so is every cluster and every context of the source.  For some input the merge fails
and the target on return is not the target of the call. -/
theorem run_collision_not_atomic (flags : Flags) (sourceConfig : SourceConfig)
    (config : Config) (hwf : sourceConfig.WF) :
    (∀ T, (run flags sourceConfig config).2 = some (.alreadyExists .context T) →
      ∀ name cluster, (name, cluster) ∈ sourceConfig.Clusters →
        entry (run flags sourceConfig config).1.Clusters
            (getTargetName name flags.overrideName flags.pfx) =
          some (if flags.server ≠ "" then { cluster with Server := flags.server }
            else cluster)) ∧
      (∀ T, (run flags sourceConfig config).2 = some (.alreadyExists .user T) →
        (∀ name cluster, (name, cluster) ∈ sourceConfig.Clusters →
          entry (run flags sourceConfig config).1.Clusters
              (getTargetName name flags.overrideName flags.pfx) =
            some (if flags.server ≠ "" then { cluster with Server := flags.server }
              else cluster)) ∧
        (∀ name context, (name, context) ∈ sourceConfig.Contexts →
          entry (run flags sourceConfig config).1.Contexts
              (getTargetName name flags.overrideName flags.pfx) =
            some { context with
              Cluster := getTargetName context.Cluster flags.overrideName flags.pfx
              AuthInfo := getTargetName context.AuthInfo flags.overrideName flags.pfx })) ∧
      (∃ (flags0 : Flags) (source0 : SourceConfig) (config0 : Config),
        source0.WF ∧ (∃ T, (run flags0 source0 config0).2 = some (.alreadyExists .context T)) ∧
          (run flags0 source0 config0).1 ≠ config0) := by
  refine ⟨fun T he name cluster hmem => ?_, fun T he => ⟨fun name cluster hmem => ?_,
    fun name context hmem => ?_⟩, ?_⟩
  · obtain ⟨h, hc⟩ := clusterLoop_ok_of_context_error flags sourceConfig config T he
    rw [run_Clusters flags sourceConfig config h]
    exact rangeEntries_stored .cluster flags.override
      (fun name => getTargetName name flags.overrideName flags.pfx) (copyCluster flags.server)
      sourceConfig.Clusters config.Clusters hc
      (run_targets_nodup flags sourceConfig hwf h).1 name cluster hmem
  · obtain ⟨h, hc, _⟩ := loops_ok_of_user_error flags sourceConfig config T he
    rw [run_Clusters flags sourceConfig config h]
    exact rangeEntries_stored .cluster flags.override
      (fun name => getTargetName name flags.overrideName flags.pfx) (copyCluster flags.server)
      sourceConfig.Clusters config.Clusters hc
      (run_targets_nodup flags sourceConfig hwf h).1 name cluster hmem
  · obtain ⟨h, hc, hx⟩ := loops_ok_of_user_error flags sourceConfig config T he
    rw [run_of_loops flags sourceConfig config h hc hx]
    exact rangeEntries_stored .context flags.override
      (fun name => getTargetName name flags.overrideName flags.pfx)
      (copyContext flags.overrideName flags.pfx) sourceConfig.Contexts config.Contexts hx
      (run_targets_nodup flags sourceConfig hwf h).2.1 name context hmem
  · exact ⟨⟨false, "", "", ""⟩, twoClusterSource, contextTarget, by decide,
      ⟨"x1", by decide⟩, by decide⟩

theorem run_collision_not_atomic_witness :
    entry (run ⟨false, "", "", ""⟩ twoClusterSource contextTarget).1.Clusters
          (getTargetName "B" "" "") =
        some (if "" ≠ "" then { (⟨"https://b", []⟩ : Cluster) with Server := "" }
          else ⟨"https://b", []⟩) ∧
      entry (run ⟨false, "", "", ""⟩ twoClusterSource userTarget).1.Contexts
          (getTargetName "x1" "" "") =
        some { (⟨"A", "u1", "", []⟩ : Context) with
          Cluster := getTargetName "A" "" ""
          AuthInfo := getTargetName "u1" "" "" } :=
  ⟨(run_collision_not_atomic ⟨false, "", "", ""⟩ twoClusterSource contextTarget
      (by decide)).1 "x1" (by decide) "B" ⟨"https://b", []⟩ (by decide),
    ((run_collision_not_atomic ⟨false, "", "", ""⟩ twoClusterSource userTarget
      (by decide)).2.1 "u1" (by decide)).2 "x1" ⟨"A", "u1", "", []⟩ (by decide)⟩

/-- C18: with `override` off and a source that passes the guard, the merge returns a
collision of kind cluster exactly when some source cluster collides with the target, also
when contexts or users collide as well; a collision of kind context exactly when no cluster
collides and some context does; a collision of kind user exactly when no cluster and no
context collides and some user does.  The source is any list of entries with distinct keys,
so the statement holds for every order of iteration. -/
theorem run_first_collision (flags : Flags) (sourceConfig : SourceConfig) (config : Config)
    (hwf : sourceConfig.WF) (hoff : flags.override = false)
    (hpass : ¬ ambiguousOverride flags.overrideName sourceConfig) :
    ((∃ T, (run flags sourceConfig config).2 = some (.alreadyExists .cluster T)) ↔
        collides flags sourceConfig config .cluster) ∧
      ((∃ T, (run flags sourceConfig config).2 = some (.alreadyExists .context T)) ↔
        (¬ collides flags sourceConfig config .cluster ∧
          collides flags sourceConfig config .context)) ∧
      ((∃ T, (run flags sourceConfig config).2 = some (.alreadyExists .user T)) ↔
        (¬ collides flags sourceConfig config .cluster ∧
          ¬ collides flags sourceConfig config .context ∧
          collides flags sourceConfig config .user)) := by
  have hC := clusterLoop_ok_iff flags sourceConfig config hwf hpass hoff
  have hX := contextLoop_ok_iff flags sourceConfig config hwf hpass hoff
  have hU := userLoop_ok_iff flags sourceConfig config hwf hpass hoff
  rcases hc : (clusterLoop flags sourceConfig config).2 with _ | e
  · have nC : ¬ collides flags sourceConfig config .cluster := hC.1 hc
    rcases hx : (contextLoop flags sourceConfig config).2 with _ | e
    · have nX : ¬ collides flags sourceConfig config .context := hX.1 hx
      rw [run_of_loops flags sourceConfig config hpass hc hx]
      rcases hu : (userLoop flags sourceConfig config).2 with _ | e
      · have nU : ¬ collides flags sourceConfig config .user := hU.1 hu
        simp [nC, nX, nU]
      · have yU : collides flags sourceConfig config .user := by
          by_contra hn
          rw [hU.2 hn] at hu
          cases hu
        obtain ⟨U, rfl⟩ := rangeEntries_error_kind _ _ _ _ _ _ e hu
        simp [nC, nX, yU]
    · have yX : collides flags sourceConfig config .context := by
        by_contra hn
        rw [hX.2 hn] at hx
        cases hx
      obtain ⟨U, rfl⟩ := rangeEntries_error_kind _ _ _ _ _ _ e hx
      rw [run_of_contextLoop_error flags sourceConfig config hpass hc _ hx]
      simp [nC, yX]
  · have yC : collides flags sourceConfig config .cluster := by
      by_contra hn
      rw [hC.2 hn] at hc
      cases hc
    obtain ⟨U, rfl⟩ := rangeEntries_error_kind _ _ _ _ _ _ e hc
    rw [run_of_clusterLoop_error flags sourceConfig config hpass _ hc]
    simp [yC]

theorem run_first_collision_witness :
    ((∃ T, (run ⟨false, "", "", ""⟩ twoClusterSource sampleTarget).2 =
          some (.alreadyExists .cluster T)) ↔
        collides ⟨false, "", "", ""⟩ twoClusterSource sampleTarget .cluster) ∧
      collides ⟨false, "", "", ""⟩ twoClusterSource sampleTarget .cluster ∧
      collides ⟨false, "", "", ""⟩ twoClusterSource sampleTarget .context ∧
      collides ⟨false, "", "", ""⟩ twoClusterSource sampleTarget .user :=
  ⟨(run_first_collision ⟨false, "", "", ""⟩ twoClusterSource sampleTarget (by decide) rfl
    (by decide)).1, by decide, by decide, by decide⟩

/-! ## What the merge stores (section 4.3, steps 4 to 7) -/

/-- C19: after a merge that succeeds, the user stored under the target name of a source user
is that user; the cluster stored under the target name of a source cluster agrees with it in
every field but the server, and is that cluster when the server override is empty; the
context stored under the target name of a source context agrees with it in every field but
the two references; and every entry of the target is an entry the target had before the
call or the copy of a source entry under its target name. -/
theorem run_copies_entries (flags : Flags) (sourceConfig : SourceConfig) (config : Config)
    (hwf : sourceConfig.WF) (hok : (run flags sourceConfig config).2 = none) :
    (∀ name user, (name, user) ∈ sourceConfig.AuthInfos →
        entry (run flags sourceConfig config).1.AuthInfos
          (getTargetName name flags.overrideName flags.pfx) = some user) ∧
      (∀ name cluster, (name, cluster) ∈ sourceConfig.Clusters →
        ∃ stored : Cluster,
          entry (run flags sourceConfig config).1.Clusters
            (getTargetName name flags.overrideName flags.pfx) = some stored ∧
          stored.rest = cluster.rest ∧ (flags.server = "" → stored = cluster)) ∧
      (∀ name context, (name, context) ∈ sourceConfig.Contexts →
        ∃ stored : Context,
          entry (run flags sourceConfig config).1.Contexts
            (getTargetName name flags.overrideName flags.pfx) = some stored ∧
          stored.Namespace = context.Namespace ∧ stored.rest = context.rest) ∧
      (∀ k v, entry (run flags sourceConfig config).1.Clusters k = some v →
        entry config.Clusters k = some v ∨
          ∃ name cluster, (name, cluster) ∈ sourceConfig.Clusters ∧
            getTargetName name flags.overrideName flags.pfx = k ∧
            v = copyCluster flags.server cluster) ∧
      (∀ k v, entry (run flags sourceConfig config).1.Contexts k = some v →
        entry config.Contexts k = some v ∨
          ∃ name context, (name, context) ∈ sourceConfig.Contexts ∧
            getTargetName name flags.overrideName flags.pfx = k ∧
            v = copyContext flags.overrideName flags.pfx context) ∧
      (∀ k v, entry (run flags sourceConfig config).1.AuthInfos k = some v →
        entry config.AuthInfos k = some v ∨
          ∃ name user, (name, user) ∈ sourceConfig.AuthInfos ∧
            getTargetName name flags.overrideName flags.pfx = k ∧ v = user) := by
  obtain ⟨h, hc, hx, hu⟩ := (run_ok_iff flags sourceConfig config).1 hok
  obtain ⟨n1, n2, n3⟩ := run_targets_nodup flags sourceConfig hwf h
  rw [run_of_ok flags sourceConfig config hok]
  refine ⟨fun name user hmem => ?_, fun name cluster hmem => ?_, fun name context hmem => ?_,
    fun k v hv => ?_, fun k v hv => ?_, fun k v hv => ?_⟩
  · exact rangeEntries_stored .user flags.override
      (fun name => getTargetName name flags.overrideName flags.pfx) (fun user => user)
      sourceConfig.AuthInfos config.AuthInfos hu n3 name user hmem
  · refine ⟨copyCluster flags.server cluster, ?_, ?_, ?_⟩
    · exact rangeEntries_stored .cluster flags.override
        (fun name => getTargetName name flags.overrideName flags.pfx)
        (copyCluster flags.server) sourceConfig.Clusters config.Clusters hc n1 name cluster hmem
    · unfold copyCluster
      split <;> rfl
    · intro hs
      simp [copyCluster, hs]
  · refine ⟨copyContext flags.overrideName flags.pfx context, ?_, rfl, rfl⟩
    exact rangeEntries_stored .context flags.override
      (fun name => getTargetName name flags.overrideName flags.pfx)
      (copyContext flags.overrideName flags.pfx) sourceConfig.Contexts config.Contexts hx n2
      name context hmem
  · exact rangeEntries_origin .cluster flags.override
      (fun name => getTargetName name flags.overrideName flags.pfx) (copyCluster flags.server)
      sourceConfig.Clusters config.Clusters k v hv
  · exact rangeEntries_origin .context flags.override
      (fun name => getTargetName name flags.overrideName flags.pfx)
      (copyContext flags.overrideName flags.pfx) sourceConfig.Contexts config.Contexts k v hv
  · exact rangeEntries_origin .user flags.override
      (fun name => getTargetName name flags.overrideName flags.pfx) (fun user => user)
      sourceConfig.AuthInfos config.AuthInfos k v hv

theorem run_copies_entries_witness :
    entry (run ⟨true, "https://s", "", "p-"⟩ twoClusterSource sampleTarget).1.AuthInfos
        (getTargetName "u1" "" "p-") = some ⟨"t", []⟩ ∧
      ∃ stored : Cluster,
        entry (run ⟨true, "https://s", "", "p-"⟩ twoClusterSource sampleTarget).1.Clusters
          (getTargetName "A" "" "p-") = some stored ∧
        stored.rest = (⟨"https://a", []⟩ : Cluster).rest ∧
        ("https://s" = "" → stored = ⟨"https://a", []⟩) :=
  ⟨(run_copies_entries ⟨true, "https://s", "", "p-"⟩ twoClusterSource sampleTarget
      (by decide) (by decide)).1 "u1" ⟨"t", []⟩ (by decide),
    (run_copies_entries ⟨true, "https://s", "", "p-"⟩ twoClusterSource sampleTarget
      (by decide) (by decide)).2.1 "A" ⟨"https://a", []⟩ (by decide)⟩

/-! ## Running the merge again -/

/-- C20: for a source that passes the guard, after a first merge that succeeded, (i) with
`override` on, a second merge of the source into the target the first merge left succeeds
and leaves that target as it is, and (ii) with `override` off, a second merge of a source
that has at least one entry fails with a collision error. -/
theorem run_again (flags : Flags) (sourceConfig : SourceConfig) (config : Config)
    (hwf : sourceConfig.WF) (hpass : ¬ ambiguousOverride flags.overrideName sourceConfig)
    (hok : (run flags sourceConfig config).2 = none) :
    (flags.override = true →
        run flags sourceConfig (run flags sourceConfig config).1 =
          ((run flags sourceConfig config).1, none)) ∧
      (flags.override = false →
        (sourceConfig.Clusters ≠ [] ∨ sourceConfig.Contexts ≠ [] ∨
          sourceConfig.AuthInfos ≠ []) →
        ∃ kind T, (run flags sourceConfig (run flags sourceConfig config).1).2 =
          some (.alreadyExists kind T)) := by
  obtain ⟨_, hc, hx, hu⟩ := (run_ok_iff flags sourceConfig config).1 hok
  obtain ⟨n1, n2, n3⟩ := run_targets_nodup flags sourceConfig hwf hpass
  have hrun := run_of_ok flags sourceConfig config hok
  have sC := rangeEntries_stored .cluster flags.override
    (fun name => getTargetName name flags.overrideName flags.pfx) (copyCluster flags.server)
    sourceConfig.Clusters config.Clusters hc n1
  have sX := rangeEntries_stored .context flags.override
    (fun name => getTargetName name flags.overrideName flags.pfx)
    (copyContext flags.overrideName flags.pfx) sourceConfig.Contexts config.Contexts hx n2
  have sU := rangeEntries_stored .user flags.override
    (fun name => getTargetName name flags.overrideName flags.pfx) (fun user => user)
    sourceConfig.AuthInfos config.AuthInfos hu n3
  have eC : (run flags sourceConfig config).1.Clusters =
      (clusterLoop flags sourceConfig config).1 := by rw [hrun]
  have eX : (run flags sourceConfig config).1.Contexts =
      (contextLoop flags sourceConfig config).1 := by rw [hrun]
  have eU : (run flags sourceConfig config).1.AuthInfos =
      (userLoop flags sourceConfig config).1 := by rw [hrun]
  constructor
  · intro hon
    have rC : clusterLoop flags sourceConfig (run flags sourceConfig config).1 =
        ((run flags sourceConfig config).1.Clusters, none) :=
      rangeEntries_rerun .cluster flags.override
        (fun name => getTargetName name flags.overrideName flags.pfx)
        (copyCluster flags.server) sourceConfig.Clusters _ hon (by rw [eC]; exact sC)
    have rX : contextLoop flags sourceConfig (run flags sourceConfig config).1 =
        ((run flags sourceConfig config).1.Contexts, none) :=
      rangeEntries_rerun .context flags.override
        (fun name => getTargetName name flags.overrideName flags.pfx)
        (copyContext flags.overrideName flags.pfx) sourceConfig.Contexts _ hon
        (by rw [eX]; exact sX)
    have rU : userLoop flags sourceConfig (run flags sourceConfig config).1 =
        ((run flags sourceConfig config).1.AuthInfos, none) :=
      rangeEntries_rerun .user flags.override
        (fun name => getTargetName name flags.overrideName flags.pfx)
        (fun user => user) sourceConfig.AuthInfos _ hon (by rw [eU]; exact sU)
    rw [run_of_loops flags sourceConfig _ hpass (by rw [rC]) (by rw [rX]), rC, rX, rU]
  · intro hoff hne
    have hcol : ∃ kind T, T ∈ sourceConfig.targetNames flags kind ∧
        (run flags sourceConfig config).1.hasKey kind T := by
      rcases hne with h1 | h1 | h1
      · obtain ⟨⟨name, cluster⟩, rest, hl⟩ := List.exists_cons_of_ne_nil h1
        refine ⟨.cluster, getTargetName name flags.overrideName flags.pfx, ?_, ?_⟩
        · simp [SourceConfig.targetNames, targetNames, hl]
        · show (entry (run flags sourceConfig config).1.Clusters _).isSome
          rw [eC, sC name cluster (by simp [hl])]
          rfl
      · obtain ⟨⟨name, context⟩, rest, hl⟩ := List.exists_cons_of_ne_nil h1
        refine ⟨.context, getTargetName name flags.overrideName flags.pfx, ?_, ?_⟩
        · simp [SourceConfig.targetNames, targetNames, hl]
        · show (entry (run flags sourceConfig config).1.Contexts _).isSome
          rw [eX, sX name context (by simp [hl])]
          rfl
      · obtain ⟨⟨name, user⟩, rest, hl⟩ := List.exists_cons_of_ne_nil h1
        refine ⟨.user, getTargetName name flags.overrideName flags.pfx, ?_, ?_⟩
        · simp [SourceConfig.targetNames, targetNames, hl]
        · show (entry (run flags sourceConfig config).1.AuthInfos _).isSome
          rw [eU, sU name user (by simp [hl])]
          rfl
    obtain ⟨kind, T, hT, hin⟩ := hcol
    obtain ⟨e, he⟩ := run_error_of_collision flags sourceConfig _ hoff kind T hT hin
    rcases run_error_sound flags sourceConfig _ hwf e he with ⟨h, _⟩ | ⟨_, _, k, U, rfl, _, _⟩
    · exact absurd h hpass
    · exact ⟨k, U, he⟩

theorem run_again_witness :
    run ⟨true, "https://s", "", "p-"⟩ twoClusterSource
        (run ⟨true, "https://s", "", "p-"⟩ twoClusterSource sampleTarget).1 =
      ((run ⟨true, "https://s", "", "p-"⟩ twoClusterSource sampleTarget).1, none) ∧
    ∃ kind T, (run ⟨false, "", "", "p-"⟩ twoClusterSource
        (run ⟨false, "", "", "p-"⟩ twoClusterSource sampleTarget).1).2 =
      some (.alreadyExists kind T) :=
  ⟨(run_again ⟨true, "https://s", "", "p-"⟩ twoClusterSource sampleTarget (by decide)
      (by decide) (by decide)).1 rfl,
    (run_again ⟨false, "", "", "p-"⟩ twoClusterSource sampleTarget (by decide)
      (by decide) (by decide)).2 rfl (by decide)⟩

end KubeConfigMerge
